import Mathlib

/-!
Verification of the jsmime core against its specification.

This file contains a shallow embedding of the relevant parts of the
sources (mimeutils.js, headerparser.js, the header-emitter module,
structuredHeaders.js and mimeparser.js) followed by theorems about the
embedded definitions.

Modelling conventions:
* JavaScript strings are modelled as lists of characters (`Str`);
  "binary strings" are lists of characters whose code points are below 256.
* A thrown JavaScript exception is modelled by an `Option`-valued result
  (`none` = an exception propagated to the caller).
* The platform text-decoding facility (`TextDecoder`) is an external
  dependency of the library, modelled by an abstract `TextDecoding`
  structure; constructing a decoder for an unknown charset throws.
* Regular expressions from the source are implemented as explicit scanners
  that follow the JavaScript leftmost-match / alternation-order semantics;
  each scanner notes the regex it implements.
* Loops whose termination is not structural are written with an explicit
  fuel parameter; the fuel chosen at the call sites exceeds the number of
  iterations the corresponding JavaScript loop can perform.
-/

set_option maxRecDepth 100000

namespace JSMime

/-- JavaScript strings, as lists of UTF-16-ish characters. -/
abbrev Str := List Char

/-- ASCII whitespace as used by JavaScript's String.prototype.trim
    (restricted to the ASCII range; header data is ASCII in practice). -/
def isJsSpace (c : Char) : Bool :=
  c == ' ' || c == '\t' || c == '\r' || c == '\n' || c == '\x0b' || c == '\x0c'

/-- Space or tab, the `[ \t]` character class. -/
def isSpaceTab (c : Char) : Bool := c == ' ' || c == '\t'

/-- The `[ \t\r\n]` character class (RFC 5322 WSP plus line endings). -/
def isWsp4 (c : Char) : Bool := c == ' ' || c == '\t' || c == '\r' || c == '\n'

/-- String.prototype.trimLeft. -/
def trimLeftJs (s : Str) : Str := s.dropWhile isJsSpace

/-- String.prototype.trimRight. -/
def trimRightJs (s : Str) : Str := (s.reverse.dropWhile isJsSpace).reverse

/-- String.prototype.trim. -/
def trimJs (s : Str) : Str := trimLeftJs (trimRightJs s)

/-- String.prototype.indexOf for a single character. -/
def indexOfChar (c : Char) : Str → Option Nat
  | [] => none
  | x :: xs => if x == c then some 0 else (indexOfChar c xs).map (· + 1)

/-- String.prototype.split on a single character (keeps empty pieces). -/
def splitOnChar (c : Char) : Str → List Str
  | [] => [[]]
  | x :: xs =>
    if x == c then [] :: splitOnChar c xs
    else
      match splitOnChar c xs with
      | [] => [[x]]
      | p :: ps => (x :: p) :: ps

/-- Lookup in an insertion-ordered association list (JS Map.get). -/
def aget {α : Type} (m : List (Str × α)) (k : Str) : Option α :=
  match m with
  | [] => none
  | (k', v) :: rest => if k' == k then some v else aget rest k

/-- JS Map.has. -/
def ahas {α : Type} (m : List (Str × α)) (k : Str) : Bool := (aget m k).isSome

/-- JS Map.set: update an existing key in place, else append (preserving
    the Map's insertion iteration order). -/
def aset {α : Type} (m : List (Str × α)) (k : Str) (v : α) : List (Str × α) :=
  match m with
  | [] => [(k, v)]
  | (k', v') :: rest => if k' == k then (k', v) :: rest else (k', v') :: aset rest k v

/-- The `if (!m.has(k)) m.set(k, v)` idiom. -/
def asetIfAbsent {α : Type} (m : List (Str × α)) (k : Str) (v : α) : List (Str × α) :=
  if ahas m k then m else m ++ [(k, v)]

/-- Decimal rendering of a JS number that is a nonnegative integer. -/
def natToStr (n : Nat) : Str := Nat.toDigits 10 n

/-- ASCII lower-casing of a string (String.prototype.toLowerCase on the
    ASCII header names handled by the library). -/
def toLowerStr (s : Str) : Str := s.map Char.toLower

/-! ## mimeutils.js : quoted-printable and base64 streaming decoders -/

def isHexDigit (c : Char) : Bool :=
  ('0' ≤ c && c ≤ '9') || ('A' ≤ c && c ≤ 'F') || ('a' ≤ c && c ≤ 'f')

def hexVal (c : Char) : Nat :=
  if '0' ≤ c && c ≤ '9' then c.toNat - 48
  else if 'A' ≤ c && c ≤ 'F' then c.toNat - 55
  else c.toNat - 87

/-- The soft-line-break half of the quoted-printable replace regex
    `=([ \t]*(\r\n|[\r\n]|$))`: after a `=`, skip `[ \t]*` and then require
    a line ending or the end of input.  `some r` returns the rest of the
    input after the dropped soft break; `none` means the alternative does
    not match (the `=` stays in the output). -/
def qpSoft (rest : Str) : Option Str :=
  match rest.dropWhile isSpaceTab with
  | [] => some []
  | '\r' :: '\n' :: r3 => some r3
  | '\r' :: r3 => some r3
  | '\n' :: r3 => some r3
  | _ => none

/-- Scanner for decode_qp's global replace of
    `=([0-9A-F][0-9A-F]|[ \t]*(\r\n|[\r\n]|$))` (case-insensitive):
    `=XY` with two hex digits becomes the denoted octet, a soft line break
    is dropped, and a `=` matching neither alternative is left unchanged. -/
def qpScan : Nat → Str → Str
  | 0, _ => []
  | _, [] => []
  | fuel+1, c :: rest =>
    if c == '=' then
      match rest with
      | c1 :: c2 :: rest2 =>
        if isHexDigit c1 && isHexDigit c2 then
          Char.ofNat (16 * hexVal c1 + hexVal c2) :: qpScan fuel rest2
        else
          match qpSoft rest with
          | some r3 => qpScan fuel r3
          | none => '=' :: qpScan fuel rest
      | _ =>
        match qpSoft rest with
        | some r3 => qpScan fuel r3
        | none => '=' :: qpScan fuel rest
    else c :: qpScan fuel rest

/-- decode_qp from mimeutils.js.  The second component of the result is
    always the empty string; the `more` argument is ignored. -/
def decode_qp (buffer : Str) (more : Bool) : Str × Str :=
  let _ := more
  (qpScan (buffer.length + 1) buffer, [])

/-- The base64 character class `[A-Za-z0-9+/=]` kept by decode_base64's
    sanitizing replace. -/
def isB64Char (c : Char) : Bool :=
  ('A' ≤ c && c ≤ 'Z') || ('a' ≤ c && c ≤ 'z') || ('0' ≤ c && c ≤ '9') ||
  c == '+' || c == '/' || c == '='

/-- decode_base64's `buffer.replace(/[^A-Za-z0-9+\/=]/g,'')`. -/
def b64Sanitize (buffer : Str) : Str := buffer.filter isB64Char

/-- Value of a base64 alphabet character. -/
def b64Val (c : Char) : Nat :=
  if 'A' ≤ c && c ≤ 'Z' then c.toNat - 65
  else if 'a' ≤ c && c ≤ 'z' then c.toNat - 97 + 26
  else if '0' ≤ c && c ≤ '9' then c.toNat - 48 + 52
  else if c == '+' then 62 else 63

/-- Bit-recombination step of the forgiving-base64 decoder, on input that
    has already been validated: groups of four characters yield three
    octets, a final group of two or three yields one or two octets, and a
    final group of one is an error. -/
def atobDecode : Str → Option Str
  | [] => some []
  | c1 :: c2 :: c3 :: c4 :: rest => do
      let tail ← atobDecode rest
      let v := ((b64Val c1 * 64 + b64Val c2) * 64 + b64Val c3) * 64 + b64Val c4
      pure (Char.ofNat (v / 65536) :: Char.ofNat (v / 256 % 256) :: Char.ofNat (v % 256) :: tail)
  | [c1, c2] => some [Char.ofNat ((b64Val c1 * 64 + b64Val c2) / 16)]
  | [c1, c2, c3] =>
      let v := (b64Val c1 * 64 + b64Val c2) * 64 + b64Val c3
      some [Char.ofNat (v / 1024), Char.ofNat (v / 4 % 256)]
  | [_] => none

/-- The platform atob function, per the WHATWG forgiving-base64 decoder:
    strip ASCII whitespace, strip up to two trailing `=` when the length
    is a multiple of four, then fail on a length of 1 mod 4 or on any
    character outside the base64 alphabet (including interior `=`).
    `none` models a thrown InvalidCharacterError. -/
def atobJS (input : Str) : Option Str :=
  let s := input.filter (fun c => !(c == ' ' || c == '\t' || c == '\n' || c == '\x0c' || c == '\r'))
  let s := if s.length % 4 == 0 then
      if s.reverse.take 2 == ['=', '='] then s.dropLast.dropLast
      else if s.reverse.take 1 == ['='] then s.dropLast
      else s
    else s
  if s.length % 4 == 1 then none
  else if s.any (fun c => !(isB64Char c) || c == '=') then none
  else atobDecode s

/-- decode_base64 from mimeutils.js: sanitize, withhold the excess that
    does not fill a base64 quantum when `more` is true (drop it when
    `more` is false), and atob the rest.  `none` models atob throwing.
    In terms of the source's locals, `sanitize` is `b64Sanitize buffer`,
    `excess` is `sanitize.length % 4`, the retained `buffer` is
    `sanitize.slice(-excess)` (the withheld trailing characters) and the
    decoded part is `atob` of `sanitize` truncated to a multiple of 4. -/
def decode_base64 (buffer : Str) (more : Bool) : Option (Str × Str) :=
  (atobJS ((b64Sanitize buffer).take
      ((b64Sanitize buffer).length - (b64Sanitize buffer).length % 4))).map
    (fun dec => (dec,
      if (b64Sanitize buffer).length % 4 != 0 && more then
        (b64Sanitize buffer).drop ((b64Sanitize buffer).length - (b64Sanitize buffer).length % 4)
      else []))

/-- stringToTypedArray from mimeutils.js (charCodeAt of every position,
    truncated mod 256 by the Uint8Array element assignment). -/
def stringToTypedArray (buffer : Str) : List Nat := buffer.map (fun c => c.toNat % 256)

/-- typedArrayToString from mimeutils.js.  The source applies
    String.fromCharCode in chunks of 100 items; the result equals the
    plain character-by-character conversion. -/
def typedArrayToString (buffer : List Nat) : Str := buffer.map Char.ofNat

/-- kMonthNames from mimeutils.js. -/
def kMonthNames : List Str :=
  ["Jan".data, "Feb".data, "Mar".data, "Apr".data, "May".data, "Jun".data,
   "Jul".data, "Aug".data, "Sep".data, "Oct".data, "Nov".data, "Dec".data]

/-! ## headeremitter : the line-folding emitter core -/

/-- clamp from the header-emitter module: the default when the option is
    absent, otherwise the value clamped into [lo, hi]. -/
def clamp (value : Option Int) (lo hi dflt : Int) : Int :=
  match value with
  | none => dflt
  | some v => if v < lo then lo else if v > hi then hi else v

/-- Options accepted by the HeaderEmitter constructor. -/
structure EmOptions where
  softMargin : Option Int := none
  hardMargin : Option Int := none
  useASCII : Option Bool := none

/-- HeaderEmitter state: margins, the line being built, the index of the
    last preferred breakpoint in it, and the strings delivered so far to
    the handler (the deliverData calls, in order). -/
structure EmState where
  useASCII : Bool
  softMargin : Int
  hardMargin : Int
  currentLine : Str
  preferredBreakpoint : Nat
  output : List Str

/-- The HeaderEmitter constructor: useASCII defaults to true, softMargin is
    clamped into [30, 900] with default 78, hardMargin into
    [softMargin, 998] with default 332. -/
def mkEmitter (options : EmOptions) : EmState :=
  let soft := clamp options.softMargin 30 900 78
  { useASCII := options.useASCII.getD true
    softMargin := soft
    hardMargin := clamp options.hardMargin soft 998 332
    currentLine := []
    preferredBreakpoint := 0
    output := [] }

/-- HeaderEmitter.prototype._commitLine.  With `count = some n`
    (continuing) the first n characters, right-trimmed, are delivered
    followed by CRLF and the rest, left-trimmed, becomes the new current
    line behind a folding space; with `none` the whole right-trimmed line
    is delivered.  The preferred breakpoint is reset.  (The source's local
    `shift` is computed but never used.) -/
def commitLine (s : EmState) (count : Option Nat) : EmState :=
  match count with
  | some n =>
      { s with output := s.output ++ [trimRightJs (s.currentLine.take n) ++ ['\r', '\n']]
               currentLine := ' ' :: trimLeftJs (s.currentLine.drop n)
               preferredBreakpoint := 0 }
  | none =>
      { s with output := s.output ++ [trimRightJs s.currentLine ++ ['\r', '\n']]
               currentLine := []
               preferredBreakpoint := 0 }

/-- Hard-margin half of _reserveTokenSpace: fit within the hard margin,
    else commit the whole line (the last emergency breakpoint) and
    re-check the hard margin. -/
def reserveHard (s : EmState) (length : Nat) : Bool × EmState :=
  if (s.currentLine.length : Int) + length ≤ s.hardMargin then (true, s)
  else
    let s2 := if s.currentLine.length > 0 then commitLine s (some s.currentLine.length) else s
    (decide ((s2.currentLine.length : Int) + length ≤ s2.hardMargin), s2)

/-- HeaderEmitter.prototype._reserveTokenSpace: fit within the soft
    margin; else fold at the preferred breakpoint if there is one and
    re-check the soft margin; else fall back to the hard-margin logic.
    Returns whether the requested length now fits, together with the state
    after any commits performed while folding. -/
def reserveTokenSpace (s : EmState) (length : Nat) : Bool × EmState :=
  if (s.currentLine.length : Int) + length ≤ s.softMargin then (true, s)
  else if s.preferredBreakpoint > 0 then
    let s1 := commitLine s (some s.preferredBreakpoint)
    if (s1.currentLine.length : Int) + length ≤ s1.softMargin then (true, s1)
    else reserveHard s1 length
  else reserveHard s length

/-- The message of the error thrown by addText. -/
def cannotEncodeMsg (text : Str) : Str :=
  "Cannot encode ".data ++ text ++ " due to length.".data

/-- HeaderEmitter.prototype.addText.  The Except component models the
    thrown error; the state is returned in either case, because lines
    committed by _reserveTokenSpace have already been delivered to the
    handler when the error is thrown. -/
def addText (s : EmState) (text : Str) (mayBreakAfter : Bool) :
    Except Str Unit × EmState :=
  match reserveTokenSpace s text.length with
  | (false, s1) => (Except.error (cannotEncodeMsg text), s1)
  | (true, s1) =>
    let line := s1.currentLine ++ text
    if mayBreakAfter then
      let pb := line.length
      let line2 := if text.getLast? == some ' ' then line else line ++ [' ']
      (Except.ok (), { s1 with currentLine := line2, preferredBreakpoint := pb })
    else
      (Except.ok (), { s1 with currentLine := line })

/-! ## headeremitter : RFC 2047 encoded-word generation -/

/-- UTF-8 bytes of one character, as produced by the platform TextEncoder. -/
def utf8Char (c : Char) : List Nat :=
  let n := c.toNat
  if n < 0x80 then [n]
  else if n < 0x800 then [0xC0 + n / 64, 0x80 + n % 64]
  else if n < 0x10000 then [0xE0 + n / 4096, 0x80 + n / 64 % 64, 0x80 + n % 64]
  else [0xF0 + n / 262144, 0x80 + n / 4096 % 64, 0x80 + n / 64 % 64, 0x80 + n % 64]

/-- The `new TextEncoder("UTF-8").encode(text)` call of
    encodeRFC2047Phrase. -/
def utf8Encode (text : Str) : List Nat := (text.map utf8Char).flatten

/-- b64Prelude constant. -/
def b64Prelude : Str := "=?UTF-8?B?".data

/-- qpPrelude constant. -/
def qpPrelude : Str := "=?UTF-8?Q?".data

/-- qpForbidden: ASCII characters forbidden in RFC 2047 Q encoded-words. -/
def qpForbidden : Str := ['=', '?', '_', '(', ')', '"']

/-- hexString constant. -/
def hexString : Str := "0123456789abcdef".data

/-- The base64 alphabet, for the btoa model. -/
def b64Alphabet : Str :=
  "ABCDEFGHIJKLMNOPQRSTUVWXYZabcdefghijklmnopqrstuvwxyz0123456789+/".data

/-- Character of the base64 alphabet at an index below 64. -/
def b64Chr (i : Nat) : Char := b64Alphabet.getD i 'A'

/-- btoa grouping: three octets to four characters, with = padding for a
    final group of one or two octets. -/
def btoaChunks : List Nat → Str
  | [] => []
  | [b1] =>
      let v := b1 * 65536
      [b64Chr (v / 262144), b64Chr (v / 4096 % 64), '=', '=']
  | [b1, b2] =>
      let v := b1 * 65536 + b2 * 256
      [b64Chr (v / 262144), b64Chr (v / 4096 % 64), b64Chr (v / 64 % 64), '=']
  | b1 :: b2 :: b3 :: rest =>
      let v := b1 * 65536 + b2 * 256 + b3
      b64Chr (v / 262144) :: b64Chr (v / 4096 % 64) :: b64Chr (v / 64 % 64) ::
        b64Chr (v % 64) :: btoaChunks rest

/-- The platform btoa on a binary string (all code points are below 256 at
    the call site, so the throwing case of btoa is not modelled). -/
def btoaJS (s : Str) : Str := btoaChunks (s.map Char.toNat)

/-- HeaderEmitter.prototype._addRFC2047Word: build one encoded-word token
    from the given octets (Q or B form) and add it with addText.  The
    Q-form hex indices (ch & 0xf0) >> 4 and ch & 0x0f are written as
    b / 16 and b % 16 (the octets are below 256). -/
def addRFC2047Word (s : EmState) (encodedText : List Nat)
    (useQP mayBreakAfter : Bool) : Except Str Unit × EmState :=
  let binaryString := typedArrayToString encodedText
  let token :=
    if useQP then
      qpPrelude ++
        (encodedText.map (fun b =>
          if b < 0x20 ∨ 0x7F ≤ b ∨ qpForbidden.contains (Char.ofNat b) = true then
            ['=', hexString.getD (b / 16) '0', hexString.getD (b % 16) '0']
          else if b == 32 then ['_'] else [Char.ofNat b])).flatten ++ ['?', '=']
    else b64Prelude ++ btoaJS binaryString ++ ['?', '=']
  addText s token mayBreakAfter

/-- The continuation-byte test `(encodedText[i] & 0xC0) == 0x80`, written
    for octets below 256 as b / 64 == 2.  An out-of-range index reads 0
    (JS: undefined & 0xC0 is 0), which is not a continuation byte. -/
def isContinuationByte (b : Nat) : Bool := b / 64 == 2

/-- The backtracking loop `while ((encodedText[i] & 0xC0) == 0x80) --i;`
    of encodeRFC2047Phrase: step back over continuation bytes to the
    nearest UTF-8 start byte. -/
def backUpByte (bytes : List Nat) : Nat → Nat
  | 0 => 0
  | i+1 => if isContinuationByte (bytes.getD (i+1) 0) then backUpByte bytes i else i + 1

/-- One segment of encodeRFC2047Phrase's counting loop, starting a new
    encoded-word at `start` with both counters given: advance i,
    accumulating the would-be base64 and quoted-printable lengths, until
    both would exceed maxChars (then split: back up to the nearest
    non-continuation byte and report the split index together with the
    base64-vs-QP choice b64Len >= qpLen) or the input ends (report the
    final word's choice).  The fuel exceeds bytes.length - i at every call
    site, which bounds the iterations of the source loop. -/
def chunkScan (bytes : List Nat) (start : Nat) (maxChars : Int) :
    Nat → Nat → Int → Int → (Nat × Bool) ⊕ Bool
  | 0, _, b64Len, qpLen => Sum.inr (decide (b64Len ≥ qpLen))
  | fuel+1, i, b64Len, qpLen =>
    if i < bytes.length then
      let b := bytes.getD i 0
      let b64Inc : Int := if (i - start) % 3 == 0 then 4 else 0
      let qpInc : Int :=
        if b < 0x20 ∨ 0x7f ≤ b ∨ qpForbidden.contains (Char.ofNat b) = true then 3 else 1
      if b64Len + b64Inc > maxChars ∧ qpLen + qpInc > maxChars then
        Sum.inl (backUpByte bytes i, decide (b64Len ≥ qpLen))
      else chunkScan bytes start maxChars fuel (i+1) (b64Len + b64Inc) (qpLen + qpInc)
    else Sum.inr (decide (b64Len ≥ qpLen))

/-- The sequence of encoded-word boundaries chosen by
    encodeRFC2047Phrase's loop: a (startIndex, useQP) pair per emitted
    word; word k covers the bytes from its start index up to the next
    word's start index, and the last word runs to the end of the byte
    array.  After each split the budget becomes maxCharsCont
    (softMargin - b64Prelude.length - 3 in the source).  The source loop
    emits at most one word per input byte plus one, so the fuel passed by
    encodeRFC2047Chunks covers all of its iterations. -/
def chunkLoop (bytes : List Nat) (maxCharsCont : Int) :
    Nat → Nat → Int → List (Nat × Bool)
  | 0, start, _ => [(start, false)]
  | fuel+1, start, maxChars =>
    match chunkScan bytes start maxChars (bytes.length + 1) start 0 0 with
    | Sum.inr useQP => [(start, useQP)]
    | Sum.inl (j, useQP) => (start, useQP) :: chunkLoop bytes maxCharsCont fuel j maxCharsCont

/-- The initial `_reserveTokenSpace(minLineLen)` step of
    encodeRFC2047Phrase, where minLineLen is b64Prelude.length + 10; when
    it fails the whole current line is committed. -/
def rfc2047Reserve (s : EmState) : EmState :=
  match reserveTokenSpace s (b64Prelude.length + 10) with
  | (true, s1) => s1
  | (false, s1) => commitLine s1 (some s1.currentLine.length)

/-- The word boundaries used by encodeRFC2047Phrase for the given emitter
    state and text.  The first word's budget is
    (softMargin - currentLine.length) - (b64Prelude.length + 2) computed
    after the initial reserve; every later word's budget is
    softMargin - b64Prelude.length - 3.  The counting loop reads nothing
    else from the emitter state, so the boundaries are a function of the
    post-reserve state and the text. -/
def encodeRFC2047Chunks (s : EmState) (text : Str) : List (Nat × Bool) :=
  let encodedText := utf8Encode text
  let s0 := rfc2047Reserve s
  chunkLoop encodedText (s0.softMargin - (b64Prelude.length + 3))
    (encodedText.length + 1) 0
    ((s0.softMargin - s0.currentLine.length) - (b64Prelude.length + 2))

/-- The byte slices covered by a chunk list: each word's slice runs from
    its start index to the next word's start index (`subarray(start, i)`
    in the source), and the final word runs to the end
    (`subarray(start)`). -/
def chunkSlices (bytes : List Nat) : List (Nat × Bool) → List (List Nat)
  | [] => []
  | [(start, _)] => [bytes.drop start]
  | (start, _) :: (next, u2) :: rest =>
      (bytes.drop start).take (next - start) :: chunkSlices bytes ((next, u2) :: rest)

/-- Emission phase of encodeRFC2047Phrase: add each word's slice with
    _addRFC2047Word, passing mayBreakAfter=true for every word except the
    last, which honors the caller's flag.  An addText error aborts the
    remaining words (the exception propagates). -/
def emitChunks (s : EmState) (bytes : List Nat) (mayBreakAfter : Bool) :
    List (Nat × Bool) → Except Str Unit × EmState
  | [] => (Except.ok (), s)
  | [(start, useQP)] => addRFC2047Word s (bytes.drop start) useQP mayBreakAfter
  | (start, useQP) :: (next, u2) :: rest =>
    match addRFC2047Word s ((bytes.drop start).take (next - start)) useQP true with
    | (Except.ok _, s1) => emitChunks s1 bytes mayBreakAfter ((next, u2) :: rest)
    | (e, s1) => (e, s1)

/-- HeaderEmitter.prototype.encodeRFC2047Phrase: encode the text as UTF-8,
    reserve room for at least one token, choose the word boundaries with
    the counting loop, and emit each word. -/
def encodeRFC2047Phrase (s : EmState) (text : Str) (mayBreakAfter : Bool) :
    Except Str Unit × EmState :=
  let bytes := utf8Encode text
  let s0 := rfc2047Reserve s
  emitChunks s0 bytes mayBreakAfter (encodeRFC2047Chunks s text)

/-! ## Platform text decoding (the TextDecoder model) -/

/-- Model of the platform TextDecoder facility, an external dependency of
    the library.  `known` says whether a charset label is recognized (the
    TextDecoder constructor throws for unknown labels).
    `decodeStream cs pending input last` decodes input bytes for charset
    cs given the decoder's buffered bytes, returning output text and the
    new buffer; a call with no arguments (`decode()`, a flush) is
    `decodeStream cs pending [] false`.  `decodeFatal` is a one-shot
    decode with fatal:true (`none` = a thrown decode error), `decodeLossy`
    a one-shot decode with fatal:false. -/
structure TextDecoding where
  known : Str → Bool
  decodeStream : Str → List Nat → List Nat → Bool → Str × List Nat
  decodeFatal : Str → List Nat → Option Str
  decodeLossy : Str → List Nat → Str

/-- A TextDecoding model that recognizes no charset; used to instantiate
    theorems at concrete inputs whose decoding paths are never reached. -/
def noTD : TextDecoding where
  known := fun _ => false
  decodeStream := fun _ pending _ _ => ([], pending)
  decodeFatal := fun _ _ => none
  decodeLossy := fun _ _ => []

/-! ## headerparser.js : decodeRFC2047Words -/

/-- State of the streaming RFC 2047 decoder: the charset of the last 2047
    token (lastCharset) and the live TextDecoder if any (the charset it
    was constructed with together with its buffered bytes). -/
structure R2State where
  lastCharset : Str
  dec : Option (Str × List Nat)

/-- Result of decoding one 2047 token: `thrown` models a propagating atob
    exception, `invalid` is the source's `return false`, `ok` a decoded
    string. -/
inductive TokRes where
  | thrown
  | invalid
  | ok (s : Str)

/-- The encoding-specific content decode of decode2047Token, before any
    charset handling.  For B/b: reject text with non-base64 characters,
    drop one trailing `=` when the length is 1 mod 4, then decode_base64
    (whose atob may throw).  For Q/q: replace `_` with space and decode_qp.
    Other encodings are invalid.  `none` = thrown, `some none` = invalid,
    `some (some buf)` = the decoded binary string. -/
def r2Content (encoding text : Str) : Option (Option Str) :=
  if encoding = ['B'] ∨ encoding = ['b'] then
    if text.any (fun c => !(isB64Char c)) then some none
    else
      let text2 :=
        if text.length % 4 == 1 && text.getLast? == some '=' then text.dropLast else text
      match decode_base64 text2 false with
      | none => none
      | some (buf, _) => some (some buf)
  else if encoding = ['Q'] ∨ encoding = ['q'] then
    some (some (decode_qp (text.map (fun c => if c == '_' then ' ' else c)) false).1)
  else some none

/-- The charset-streaming step of decode2047Token: flush the live decoder
    when the charset changed, then reuse it or construct a new one
    (invalid when the charset is unknown), and decode the buffer in
    streaming mode.  Note that lastCharset is updated even on the
    unknown-charset exit. -/
def r2Charset (td : TextDecoding) (st : R2State) (charset : Str) (buf : Str) :
    R2State × TokRes :=
  let output : Str :=
    if charset ≠ st.lastCharset then
      match st.dec with
      | some (cs, pending) => (td.decodeStream cs pending [] false).1
      | none => []
    else []
  let dec1 : Option (Str × List Nat) := if charset ≠ st.lastCharset then none else st.dec
  match dec1 with
  | some (cs, pending) =>
    let r := td.decodeStream cs pending (stringToTypedArray buf) true
    ({ lastCharset := charset, dec := some (cs, r.2) }, TokRes.ok (output ++ r.1))
  | none =>
    if td.known charset = true then
      let r := td.decodeStream charset [] (stringToTypedArray buf) true
      ({ lastCharset := charset, dec := some (charset, r.2) }, TokRes.ok (output ++ r.1))
    else ({ lastCharset := charset, dec := none }, TokRes.invalid)

/-- decode2047Token from headerparser.js: split the token at `?`, require
    five fields closed by `=`, strip the RFC 2231 *language suffix from
    the charset, decode the content per the encoding field, then run the
    charset-streaming step. -/
def decode2047Token (td : TextDecoding) (st : R2State) (token : Str) :
    R2State × TokRes :=
  let tokenParts := splitOnChar '?' token
  if tokenParts.length = 5 ∧ tokenParts.getD 4 [] = ['='] then
    let charset := (splitOnChar '*' (tokenParts.getD 1 [])).headD []
    match r2Content (tokenParts.getD 2 []) (tokenParts.getD 3 []) with
    | none => (st, TokRes.thrown)
    | some none => (st, TokRes.invalid)
    | some (some buf) => r2Charset td st charset buf
  else (st, TokRes.invalid)

/-- A match of the split regex `(=\?[^?]*\?[BQbq]\?[^?]*\?=)` anchored at
    the start of s: `[^?]*` can only stop at the next `?`, so the match is
    deterministic.  Returns the token and the rest of the input. -/
def matchR2047At (s : Str) : Option (Str × Str) :=
  match s with
  | '=' :: '?' :: rest =>
    let cs := rest.takeWhile (fun c => c != '?')
    (match rest.drop cs.length with
     | '?' :: e :: '?' :: rest2 =>
       if e == 'B' || e == 'Q' || e == 'b' || e == 'q' then
         let txt := rest2.takeWhile (fun c => c != '?')
         (match rest2.drop txt.length with
          | '?' :: '=' :: rest3 =>
            some (['=', '?'] ++ cs ++ ['?', e, '?'] ++ txt ++ ['?', '='], rest3)
          | _ => none)
       else none
     | _ => none)
  | _ => none

/-- Leftmost-match search for the split regex: try every start position
    in order.  Returns (before, token, rest). -/
def findR2047 : Nat → Str → Option (Str × Str × Str)
  | 0, _ => none
  | _, [] => none
  | fuel+1, c :: cs =>
    match matchR2047At (c :: cs) with
    | some (tok, rest) => some ([], tok, rest)
    | none =>
      match findR2047 fuel cs with
      | some (pre, tok, rest) => some (c :: pre, tok, rest)
      | none => none

/-- headerValue.split(/(=\?[^?]*\?[BQbq]\?[^?]*\?=)/): components
    alternate between non-matching text and captured tokens, keeping the
    (possibly empty) leading and trailing pieces, as JS split with a
    capturing group does. -/
def split2047 : Nat → Str → List Str
  | 0, s => [s]
  | fuel+1, s =>
    match findR2047 (s.length + 1) s with
    | none => [s]
    | some (pre, tok, rest) => pre :: tok :: split2047 fuel rest

/-- The split of decodeRFC2047Words, with sufficient fuel. -/
def splitR2047 (s : Str) : List Str := split2047 (s.length + 1) s

/-- The `/^[ \t\r\n]*$/` whitespace-only test. -/
def isWspOnly (s : Str) : Bool := s.all isWsp4

/-- The flush fall-through of decodeRFC2047Words' loop: reset lastCharset
    to the empty string and, if a decoder is live, flush it into a prefix
    for the current component. -/
def r2Flush (td : TextDecoding) (st : R2State) : Str × R2State :=
  match st.dec with
  | some (cs, pending) =>
    ((td.decodeStream cs pending [] false).1, { lastCharset := [], dec := none })
  | none => ([], { lastCharset := [], dec := none })

/-- The per-component loop of decodeRFC2047Words: a component starting
    with "=?" is decoded (on success it is replaced by the decoded text;
    decode2047Token's state carries across components); a whitespace-only
    component becomes empty; any other component flushes the live decoder,
    whose text is prepended to the component.  `none` models the
    propagation of a thrown exception. -/
def r2Loop (td : TextDecoding) : List Str → R2State → Option (List Str)
  | [], _ => some []
  | c :: cs, st =>
    if c.take 2 = ['=', '?'] then
      match decode2047Token td st c with
      | (st', TokRes.ok s) => (r2Loop td cs st').map (fun rest => s :: rest)
      | (st', TokRes.invalid) =>
        let f := r2Flush td st'
        (r2Loop td cs f.2).map (fun rest => (f.1 ++ c) :: rest)
      | (_, TokRes.thrown) => none
    else if isWspOnly c = true then
      (r2Loop td cs st).map (fun rest => ([] : Str) :: rest)
    else
      let f := r2Flush td st
      (r2Loop td cs f.2).map (fun rest => (f.1 ++ c) :: rest)

/-- decodeRFC2047Words from headerparser.js: split into components, run
    the loop with an initially empty state, and join.  `none` models a
    thrown exception (atob on malformed base64 content). -/
def decodeRFC2047Words (td : TextDecoding) (headerValue : Str) : Option Str :=
  (r2Loop td (splitR2047 headerValue) { lastCharset := [], dec := none }).map
    List.flatten

/-- The badness condition of claim C9 on one component: it has the
    five-field =?charset?enc?text?= shape, and its encoding field is not
    one of B, b, Q, q, or its charset (the field before any *language
    suffix) is not recognized by the text-decoding facility. -/
def badToken (td : TextDecoding) (c : Str) : Prop :=
  c.take 2 = ['=', '?'] ∧
  (splitOnChar '?' c).length = 5 ∧
  (splitOnChar '?' c).getD 4 [] = ['='] ∧
  (¬ ((splitOnChar '?' c).getD 2 [] = ['B'] ∨ (splitOnChar '?' c).getD 2 [] = ['b'] ∨
      (splitOnChar '?' c).getD 2 [] = ['Q'] ∨ (splitOnChar '?' c).getD 2 [] = ['q']) ∨
    td.known ((splitOnChar '*' ((splitOnChar '?' c).getD 1 [])).headD []) = false)

/-! ## headerparser.js : getHeaderTokens -/

/-- Unescaping performed by the tokenizer's Token constructor:
    `token.replace(/\\(.?)/g, "$1")`.  Each backslash is removed; the
    following character (when present) is kept, and scanning resumes
    after it.  A trailing backslash is deleted.  (When the escaped
    character is a line terminator, `.` matches the empty string, only the
    backslash is consumed and the character is then copied as plain text —
    the result is the same as this equation.) -/
def unescapeTok : Str → Str
  | [] => []
  | ['\\'] => []
  | '\\' :: c :: rest => c :: unescapeTok rest
  | c :: rest => c :: unescapeTok rest

/-- Output tokens of getHeaderTokens: a delimiter (pushed by the source as
    a one-character string), a Token instance (unescaped printable form),
    or the already-decoded RFC 2047 pseudo-token (never unescaped). -/
inductive HTok where
  | delim (c : Char)
  | tok (printable : Str)
  | raw (printable : Str)
deriving DecidableEq, Repr

/-- The toString form of a token. -/
def HTok.printable : HTok → Str
  | .delim c => [c]
  | .tok s => s
  | .raw s => s

/-- The opts parameter of getHeaderTokens. -/
structure TokOpts where
  qstring : Bool := false
  dliteral : Bool := false
  comments : Bool := false
  rfc2047 : Bool := false

/-- value.slice(a, b). -/
def strSlice (value : Str) (a b : Nat) : Str := (value.drop a).take (b - a)

/-- Greedy `([ \t\r\n]*=\?[^?]*\?[BbQq]\?[^?]*\?=)+` anchored at the start
    of s: the total match length, requiring at least one unit.  A unit is
    optional whitespace followed by one encoded word (the same word shape
    as the split regex of decodeRFC2047Words, so matchR2047At is reused). -/
def encWordsRun : Nat → Str → Option Nat
  | 0, _ => none
  | fuel+1, s =>
    let w := (s.takeWhile isWsp4).length
    match matchR2047At (s.drop w) with
    | none => none
    | some (tokn, rest) =>
      match encWordsRun fuel rest with
      | some n => some (w + tokn.length + n)
      | none => some (w + tokn.length)

/-- The (non-anchored) exec of the encoded-words regex over the slice
    beginning at the current position: the length of the leftmost match
    anywhere in the slice.  The source uses only result[0].length and
    applies it at the current position, even when the match began later in
    the slice. -/
def encWordsSearch : Nat → Str → Option Nat
  | 0, _ => none
  | fuel+1, s =>
    match encWordsRun (s.length + 1) s with
    | some n => some n
    | none =>
      match s with
      | [] => none
      | _ :: rest => encWordsSearch fuel rest

/-- Per-character classification of the tokenizer outside quotes and
    encoded-words: whether the character ends the open atom, starts a new
    token, must be emitted as a delimiter, which end quote it opens, and
    the new comment depth. -/
structure StepFlags where
  ending : Bool
  starting : Bool
  special : Bool
  endQuote : Option Char
  depth : Nat

/-- The delimiter / whitespace / quote / comment analysis of one character
    (the if-else chain of getHeaderTokens).  Delimiters apply only at
    comment depth 0; a `)` decrements the depth only when it is positive. -/
def charStep (delimiters : Str) (opts : TokOpts) (depth : Nat) (ch : Char) : StepFlags :=
  if isWsp4 ch = true then ⟨true, false, false, none, depth⟩
  else if depth = 0 ∧ delimiters.contains ch = true then ⟨true, false, true, none, depth⟩
  else if opts.qstring = true ∧ ch = '"' then ⟨true, true, false, some '"', depth⟩
  else if opts.dliteral = true ∧ ch = '[' then ⟨true, true, false, some ']', depth⟩
  else if opts.comments = true ∧ ch = '(' then ⟨true, false, true, none, depth + 1⟩
  else if opts.comments = true ∧ ch = ')' then ⟨true, false, true, none, depth - 1⟩
  else ⟨false, true, false, none, depth⟩

/-- The delimiter-or-atom processing of one character of getHeaderTokens
    (the tail of the loop body), shared by the rfc2047-miss path and the
    plain path: returns the new token list, tokenStart, endQuote and
    comment depth. -/
def tokNormal (value delimiters : Str) (opts : TokOpts)
    (i : Nat) (tokenStart : Option Nat) (commentDepth : Nat)
    (acc : List HTok) (ch : Char) :
    List HTok × Option Nat × Option Char × Nat :=
  let f := charStep delimiters opts commentDepth ch
  let pair : List HTok × Option Nat :=
    match tokenStart with
    | some ts =>
      if f.ending then (acc ++ [HTok.tok (unescapeTok (strSlice value ts i))], none)
      else (acc, some ts)
    | none => (acc, none)
  let acc2 := if f.special then pair.1 ++ [HTok.delim ch] else pair.1
  let ts2 := if f.starting ∧ pair.2 = none then some i else pair.2
  (acc2, ts2, f.endQuote, f.depth)

/-- The main loop of getHeaderTokens over character index i, with the
    source's tokenStart / endQuote / commentDepth state and the emitted
    token list.  Each iteration advances i by at least one, so the fuel
    passed by getHeaderTokens covers all iterations; `none` propagates a
    decodeRFC2047Words exception. -/
def tokLoop (td : TextDecoding) (value delimiters : Str) (opts : TokOpts)
    (fuel0 : Nat) (i : Nat) (tokenStart : Option Nat) (endQuote : Option Char)
    (commentDepth : Nat) (acc : List HTok) : Option (List HTok) :=
  match fuel0 with
  | 0 => some acc
  | fuel+1 =>
    match value.drop i with
    | [] =>
      -- after the loop: close a currently open token; a partially-open
      -- quoted string drops its opening quote
      match tokenStart with
      | none => some acc
      | some ts =>
        if endQuote = some '"' then
          some (acc ++ [HTok.tok (unescapeTok (value.drop (ts + 1)))])
        else
          some (acc ++ [HTok.tok (unescapeTok (value.drop ts))])
    | ch :: _ =>
      if ch = '\\' then
        -- a backslash skips the next character in every context
        tokLoop td value delimiters opts fuel (i + 2) tokenStart endQuote commentDepth acc
      else
        match endQuote with
        | some q =>
          if ch = q ∧ q = '"' then
            -- quoted strings exclude their delimiters; decode as RFC 2047
            -- only when the whole content looks like an encoded word
            let text := strSlice value ((tokenStart.getD 0) + 1) i
            let decoded : Option Str :=
              if opts.rfc2047 = true ∧ text.take 2 = ['=', '?'] ∧
                  text.reverse.take 2 = ['=', '?'] then
                decodeRFC2047Words td text
              else some text
            match decoded with
            | none => none
            | some text2 =>
              tokLoop td value delimiters opts fuel (i + 1) none none commentDepth
                (acc ++ [HTok.tok (unescapeTok text2)])
          else if ch = q ∧ q = ']' then
            -- domain literals include their delimiters
            tokLoop td value delimiters opts fuel (i + 1) none none commentDepth
              (acc ++ [HTok.tok (unescapeTok (strSlice value (tokenStart.getD 0) (i + 1)))])
          else
            tokLoop td value delimiters opts fuel (i + 1) tokenStart endQuote commentDepth acc
        | none =>
          if opts.rfc2047 = true ∧ ch = '=' ∧ i + 1 < value.length ∧
              value.getD (i + 1) ' ' = '?' then
            match encWordsSearch ((value.drop i).length + 1) (value.drop i) with
            | some encWordsLen =>
              let acc1 := match tokenStart with
                | some ts => acc ++ [HTok.tok (unescapeTok (strSlice value ts i))]
                | none => acc
              match decodeRFC2047Words td (strSlice value i (i + encWordsLen)) with
              | none => none
              | some str =>
                tokLoop td value delimiters opts fuel (i + encWordsLen) none none
                  commentDepth (acc1 ++ [HTok.raw str])
            | none =>
              let r := tokNormal value delimiters opts i tokenStart commentDepth acc ch
              tokLoop td value delimiters opts fuel (i + 1) r.2.1 r.2.2.1 r.2.2.2 r.1
          else
            let r := tokNormal value delimiters opts i tokenStart commentDepth acc ch
            tokLoop td value delimiters opts fuel (i + 1) r.2.1 r.2.2.1 r.2.2.2 r.1

/-- getHeaderTokens from headerparser.js. -/
def getHeaderTokens (td : TextDecoding) (value delimiters : Str) (opts : TokOpts) :
    Option (List HTok) :=
  tokLoop td value delimiters opts (value.length + 2) 0 none none 0 []

/-! ## headerparser.js : parseParameterHeader -/

/-- The JS primitive-string view of a token: delimiter yields and rfc2047
    raw pushes are primitive strings (which === compares by content);
    Token objects are never === to a string. -/
def htokAsPrim : HTok → Option Str
  | .delim c => some [c]
  | .raw s => some s
  | .tok _ => none

/-- token.replace of the global regex matching a percent sign and two hex
    digits with String.fromCharCode(parseInt(hexchars, 16)) (the RFC 2231
    extended-value percent-decoding). -/
def percentScan : Nat → Str → Str
  | 0, _ => []
  | _, [] => []
  | fuel+1, '%' :: a :: b :: rest2 =>
    if isHexDigit a && isHexDigit b then
      Char.ofNat (16 * hexVal a + hexVal b) :: percentScan fuel rest2
    else '%' :: percentScan fuel (a :: b :: rest2)
  | fuel+1, c :: rest => c :: percentScan fuel rest

/-- The percent-decoding itself; the scanner's fuel is the input length
    (every step consumes at least one character). -/
def percentDecode (s : Str) : Str := percentScan s.length s

/-- One step of the matches loop of parseParameterHeader (the for-of body
    over getHeaderTokens(rest, ";=", opts)); the state is (name, inName,
    matches). -/
def ppMatchStep (do2231 : Bool) (st : Str × Bool × List (Str × Str)) (t : HTok) :
    Str × Bool × List (Str × Str) :=
  let name := st.1
  let inName := st.2.1
  let ms := st.2.2
  if htokAsPrim t = some [';'] then
    ([], true, if name ≠ [] ∧ inName = false then ms ++ [(name, [])] else ms)
  else if htokAsPrim t = some ['='] then
    (name, false, ms)
  else if inName ∧ name = [] then
    (t.printable, inName, ms)
  else if ¬ inName ∧ name ≠ [] then
    let tokStr := t.printable
    let tok2 := if do2231 ∧ name.getLast? = some '*' then percentDecode tokStr else tokStr
    ([], inName, ms ++ [(name, tok2)])
  else if inName then
    ([], inName, ms)
  else
    st

/-- The matches list of parseParameterHeader: fold the token list with
    ppMatchStep from ('', true, []), then push a leftover `...; tokenA`
    name with an empty value. -/
def ppMatches (do2231 : Bool) (toks : List HTok) : List (Str × Str) :=
  let st := toks.foldl (ppMatchStep do2231) ([], true, [])
  if st.1 ≠ [] ∧ st.2.1 = false then st.2.2 ++ [(st.1, [])] else st.2.2

/-- A continuationValues entry: a JS array (sparse, undefined = none)
    with the extra properties valid and hasCharset (undefined until a *0
    segment is seen). -/
structure ContEntry where
  valid : Bool
  hasCharset : Option Bool
  arr : List (Option Str)
deriving Repr, DecidableEq

/-- entry[n] = value on a JS array: expand with undefined up to index n
    if needed, then set. -/
def arrSet (arr : List (Option Str)) (n : Nat) (v : Str) : List (Option Str) :=
  (arr ++ List.replicate (n + 1 - arr.length) none).set n (some v)

/-- The three classification maps built from matches. -/
structure PPClass where
  simpleValues : List (Str × Str)
  charsetValues : List (Str × Str)
  continuationValues : List (Str × ContEntry)
deriving Repr, DecidableEq

/-- The test of the regex matching one or more decimal digits spanning
    the whole string (used on the continuation number). -/
def isDecNumber (s : Str) : Bool := !s.isEmpty && s.all (fun c => '0' ≤ c && c ≤ '9')

/-- parseInt(number, 10) on a string of decimal digits. -/
def decNumber (s : Str) : Nat := s.foldl (fun n c => 10 * n + (c.toNat - 48)) 0

/-- The repeat check and store of one continuation segment: a repeated
    index invalidates, otherwise entry[number] = value. -/
def ppContRecord (entry : ContEntry) (n : Nat) (value : Str) : ContEntry :=
  if (entry.arr.getD n none).isSome then { entry with valid := false }
  else { entry with arr := arrSet entry.arr n value }

/-- The continuation-segment tail of one classification iteration: note
    the *0 segment's charset marker, invalidate a bad index (leading zero
    or non-decimal), otherwise parse the index and record the segment. -/
def ppContUpdate (entry : ContEntry) (name value : Str) (star : Nat) : ContEntry :=
  let lastStar := name.getLast? = some '*'
  let number := strSlice name (star + 1) (name.length - (if lastStar then 1 else 0))
  if number = ['0'] then
    ppContRecord { entry with hasCharset := some (decide lastStar) } 0 value
  else if (number.head? = some '0' ∧ number ≠ ['0']) ∨ isDecNumber number = false then
    { entry with valid := false }
  else
    ppContRecord entry (decNumber number) value

/-- One iteration of the classification loop of parseParameterHeader over
    matches: param=val to simpleValues (first value wins), param*= to
    charsetValues (first value wins), param*N / param*N* to
    continuationValues (skipped once the entry went invalid). -/
def ppClassStep (cls : PPClass) (pair : Str × Str) : PPClass :=
  let name := pair.1
  let value := pair.2
  match indexOfChar '*' name with
  | none =>
    { cls with simpleValues := asetIfAbsent cls.simpleValues name value }
  | some star =>
    if star = name.length - 1 then
      { cls with charsetValues := asetIfAbsent cls.charsetValues (name.take star) value }
    else
      let param := name.take star
      match aget cls.continuationValues param with
      | some entry =>
        if entry.valid = false then cls
        else
          let cv := aset cls.continuationValues param (ppContUpdate entry name value star)
          { cls with continuationValues := cv }
      | none =>
        let fresh : ContEntry := { valid := true, hasCharset := none, arr := [] }
        let cv := aset cls.continuationValues param (ppContUpdate fresh name value star)
        { cls with continuationValues := cv }

/-- The classification pass of parseParameterHeader. -/
def ppClassify (ms : List (Str × Str)) : PPClass :=
  ms.foldl ppClassStep
    { simpleValues := [], charsetValues := [], continuationValues := [] }

/-- decode2231Value from headerparser.js: strip the charset'language'
    prefix, then decode the remaining bytes with a fatal TextDecoder for
    that charset.  `none` models the thrown error (unknown charset label
    or a fatal decode failure). -/
def decode2231Value (td : TextDecoding) (value : Str) : Option Str :=
  match indexOfChar '\'' value with
  | none =>
    if td.known [] then td.decodeFatal [] (stringToTypedArray value) else none
  | some q1 =>
    let charset := value.take q1
    let q2 : Option Nat := (indexOfChar '\'' (value.drop (q1 + 1))).map (fun i => q1 + 1 + i)
    let rest := value.drop ((match q2 with | some v => v | none => q1) + 1)
    if td.known charset then td.decodeFatal charset (stringToTypedArray rest) else none

/-- The prefix scan of a continuation entry: the final value of i in
    for (i = 0; valid and i < entry.length; i++) { if entry[i] is
    undefined, valid = false }, i.e. one past the first undefined slot,
    or the length when none is missing. -/
def contScanLen : List (Option Str) → Nat
  | [] => 0
  | some _ :: rest => 1 + contScanLen rest
  | none :: _ => 1

/-- entry.slice(0, i).join(): an undefined element joins as
    the empty string. -/
def joinOpt (l : List (Option Str)) : Str := (l.map (fun o => o.getD [])).flatten

/-- The continuation-assembly loop body of parseParameterHeader when
    doRFC2231 is on: skip entries that never saw a *0 segment (hasCharset
    undefined), join the scanned prefix (the entry's valid flag is not
    consulted here), charset-decode when the *0 segment ended in a star,
    and set the value; a failed decode adds nothing. -/
def contAssembleStep (td : TextDecoding) (values : List (Str × Str))
    (pair : Str × ContEntry) : List (Str × Str) :=
  match pair.2.hasCharset with
  | none => values
  | some hc =>
    let value := joinOpt (pair.2.arr.take (contScanLen pair.2.arr))
    if hc then
      match decode2231Value td value with
      | some v => aset values pair.1 v
      | none => values
    else aset values pair.1 value

/-- The charsetValues assembly loop body (highest priority): decode and
    set, a failed decode adds nothing. -/
def charsetAssembleStep (td : TextDecoding) (values : List (Str × Str))
    (pair : Str × Str) : List (Str × Str) :=
  match decode2231Value td pair.2 with
  | some v => aset values pair.1 v
  | none => values

/-- parseParameterHeader from headerparser.js: the preSemi token paired
    with the parameter map (an insertion-ordered association list).
    `none` only on token-scanner fuel exhaustion, which getHeaderTokens'
    fuel choice prevents. -/
def parseParameterHeader (td : TextDecoding) (headerValue : Str)
    (doRFC2047 doRFC2231 : Bool) : Option (Str × List (Str × Str)) :=
  let semi := indexOfChar ';' headerValue
  let start0 := match semi with | none => headerValue | some s => headerValue.take s
  let rest := match semi with | none => [] | some s => headerValue.drop s
  let start := (trimJs start0).takeWhile (fun c => !(isWsp4 c))
  let opts : TokOpts := { qstring := true, rfc2047 := doRFC2047 }
  (getHeaderTokens td rest ";=".data opts).map (fun toks =>
    let ms := ppMatches doRFC2231 toks
    let cls := ppClassify ms
    let values0 := cls.simpleValues.foldl (fun vs p => aset vs p.1 p.2) []
    let values :=
      if doRFC2231 then
        cls.charsetValues.foldl (charsetAssembleStep td)
          (cls.continuationValues.foldl (contAssembleStep td) values0)
      else values0
    (start, values))

/-! ## headerparser.js : parseDateHeader -/

/-- The longest digit-prefix conversion inside parseInt: none when no
    digit at all is found. -/
def parseIntDigits (isD : Char → Bool) (val : Char → Nat) (base : Nat) (s : Str) : Option Nat :=
  let ds := s.takeWhile isD
  if ds.isEmpty then none else some (ds.foldl (fun n c => base * n + val c) 0)

/-- parseInt with no radix argument (ECMAScript): strip leading
    whitespace, an optional sign, a 0x/0X prefix selects base 16 and
    otherwise base 10, then convert the longest digit prefix; no digit is
    NaN (none). -/
def jsParseInt (s0 : Str) : Option Int :=
  let s1 := trimLeftJs s0
  let p : Int × Str :=
    match s1 with
    | '-' :: rest => (-1, rest)
    | '+' :: rest => (1, rest)
    | _ => (1, s1)
  match p.2 with
  | '0' :: 'x' :: rest => (parseIntDigits isHexDigit hexVal 16 rest).map (fun n => p.1 * n)
  | '0' :: 'X' :: rest => (parseIntDigits isHexDigit hexVal 16 rest).map (fun n => p.1 * n)
  | s =>
    (parseIntDigits (fun c => '0' ≤ c && c ≤ '9') (fun c => c.toNat - 48) 10 s).map
      (fun n => p.1 * n)

/-- kKnownTZs from headerparser.js. -/
def kKnownTZs : List (Str × Str) :=
  [("UT".data, "+0000".data), ("GMT".data, "+0000".data),
   ("EST".data, "-0500".data), ("EDT".data, "-0400".data),
   ("CST".data, "-0600".data), ("CDT".data, "-0500".data),
   ("MST".data, "-0700".data), ("MDT".data, "-0600".data),
   ("PST".data, "-0800".data), ("PDT".data, "-0700".data),
   ("AST".data, "-0400".data), ("NST".data, "-0330".data),
   ("BST".data, "+0100".data), ("MET".data, "+0100".data),
   ("EET".data, "+0200".data), ("JST".data, "+0900".data)]

/-- The anchored regex with a sign group and two two-digit groups and
    nothing else, applied to the timezone token: the sign and the two
    groups on a match. -/
def tzDecompose (s : Str) : Option (Char × Str × Str) :=
  match s with
  | [sg, a, b, c, d] =>
    if (sg = '+' ∨ sg = '-') ∧ [a, b, c, d].all (fun ch => '0' ≤ ch && ch ≤ '9') then
      some (sg, [a, b], [c, d])
    else none
  | _ => none

/-- The timezone-offset computation of parseDateHeader: replace a known
    abbreviation by its offset string, split sign/hours/minutes, and on
    no match use +0000 (offset 0). -/
def tzOffsetInMin (tz0 : Str) : Int :=
  let tz := (aget kKnownTZs tz0).getD tz0
  match tzDecompose tz with
  | some (sg, hh, mm) =>
    let v : Int := decNumber hh * 60 + decNumber mm
    if sg = '-' then -v else v
  | none => 0

/-- kMonthNames.indexOf(token.slice(0, 3)): the zero-based month on a
    match, none (NaN) otherwise. -/
def monthIndex (tok : Str) : Option Int :=
  match kMonthNames.findIdx? (fun m => m == tok.take 3) with
  | some i => some (Int.ofNat i)
  | none => none

/-- The two-digit-year adjustment of parseDateHeader: a year below 100
    gains 2000 when below 50 and 1900 otherwise; NaN (none) is unchanged
    (the comparison with 100 is false on NaN). -/
def adjustYear (y : Option Int) : Option Int :=
  y.map (fun v => if v < 100 then (if v < 50 then v + 2000 else v + 1900) else v)

/-- days_from_civil (the standard civil-from-days inverse): days from
    1970-01-01 to the civil date y-m-d with m in 1..12; d may lie outside
    the month and contributes linearly. -/
def daysFromCivil (y m d : Int) : Int :=
  let yA := y - (if m ≤ 2 then 1 else 0)
  let era := Int.fdiv yA 400
  let yoe := yA - era * 400
  let mp := Int.emod (m + 9) 12
  let doy := Int.fdiv (153 * mp + 2) 5 + d - 1
  let doe := yoe * 365 + Int.fdiv yoe 4 - Int.fdiv yoe 100 + doy
  era * 146097 + doe - 719468

/-- Date.UTC(year, month, day, hours, minutes, seconds): none is NaN and
    propagates; an integer year 0..99 maps to 1900..1999; the zero-based
    month is normalized into the year by floor division; day, hours,
    minutes and seconds roll over linearly; a time value beyond
    8.64e15 milliseconds from the epoch is NaN. -/
def jsDateUTC (year month day hours minutes seconds : Option Int) : Option Int :=
  match year, month, day, hours, minutes, seconds with
  | some y0, some mo, some d, some h, some mi, some s =>
    let y := if 0 ≤ y0 ∧ y0 ≤ 99 then y0 + 1900 else y0
    let yAdj := y + Int.fdiv mo 12
    let mAdj := Int.emod mo 12 + 1
    let t := (((daysFromCivil yAdj mAdj d * 24 + h) * 60 + mi) * 60 + s) * 1000
    if -8640000000000000 ≤ t ∧ t ≤ 8640000000000000 then some t else none
  | _, _, _, _, _, _ => none

/-- parseDateHeader from headerparser.js: tokenize with delimiters comma
    and colon, drop a leading day-of-week (first two tokens when the
    second is a comma), require at least eight tokens, read the numeric
    fields with parseInt and the month by name, adjust a two-digit year,
    and build the instant as the UTC tuple minus the timezone offset.
    The outer Option is the token scanner's fuel (never exhausted); the
    inner Option Int is the date's time value in milliseconds, none for
    an invalid date (a NaN time value).  tokens[8] when absent reads as
    undefined, which matches no timezone form and yields offset 0, the
    same as the empty string used here. -/
def parseDateHeader (td : TextDecoding) (header : Str) : Option (Option Int) :=
  (getHeaderTokens td header ",:".data {}).map (fun toks =>
    let tokens0 := toks.map HTok.printable
    let tokens :=
      if tokens0.length > 1 ∧ tokens0.getD 1 [] = [','] then tokens0.drop 2 else tokens0
    if tokens.length < 8 then none
    else
      let day := jsParseInt (tokens.getD 0 [])
      let year := adjustYear (jsParseInt (tokens.getD 2 []))
      let hours := jsParseInt (tokens.getD 3 [])
      let minutes := jsParseInt (tokens.getD 5 [])
      let seconds := jsParseInt (tokens.getD 7 [])
      let month := monthIndex (tokens.getD 1 [])
      let off := tzOffsetInMin (tokens.getD 8 [])
      (jsDateUTC year month day hours minutes seconds).bind (fun t =>
        let t2 := t - off * 60 * 1000
        if -8640000000000000 ≤ t2 ∧ t2 ≤ 8640000000000000 then some t2 else none))

/-! ## The structured-header registries

    structuredHeaders.js builds Maps of decoders, encoders and preferred
    spellings; headerparser.js folds the decoders into its own registry
    while collecting forbiddenHeaders, and the headeremitter module folds
    the encoders into its own.  Decoder and encoder functions are
    represented by numeric identities (0 parseAddress, 1 parseContentType,
    2 parseUnstructured, 3 parseDate, 4 parseMessageID, 5 the
    Content-Transfer-Encoding lambda; 0 writeAddress, 1 writeUnstructured,
    2 writeDate, 3 writeMessageID); user-supplied functions in theorems
    use fresh identities.  The source shares one spellings Map between
    both modules; here each registry carries its own copy, which the
    claims do not observe. -/

/-- The decoders map of structuredHeaders.js in insertion order: the
    addHeader names lowercased, plus Content-Type and
    Content-Transfer-Encoding set directly under their original
    spelling. -/
def shDecoders : List (Str × Nat) :=
  [("bcc".data, 0), ("cc".data, 0), ("from".data, 0), ("reply-to".data, 0),
   ("resent-bcc".data, 0), ("resent-cc".data, 0), ("resent-from".data, 0),
   ("resent-reply-to".data, 0), ("resent-sender".data, 0), ("resent-to".data, 0),
   ("sender".data, 0), ("to".data, 0), ("approved".data, 0),
   ("disposition-notification-to".data, 0), ("delivered-to".data, 0),
   ("return-receipt-to".data, 0), ("mail-reply-to".data, 0),
   ("mail-followup-to".data, 0),
   ("Content-Type".data, 1),
   ("comments".data, 2), ("keywords".data, 2), ("subject".data, 2),
   ("mime-version".data, 2), ("content-description".data, 2),
   ("user-agent".data, 2),
   ("date".data, 3), ("resent-date".data, 3), ("expires".data, 3),
   ("injection-date".data, 3), ("nntp-posting-date".data, 3),
   ("message-id".data, 4), ("resent-message-id".data, 4),
   ("Content-Transfer-Encoding".data, 5)]

/-- The encoders map of structuredHeaders.js in insertion order (no
    Content-Type entry; Content-Transfer-Encoding uses
    writeUnstructured). -/
def shEncoders : List (Str × Nat) :=
  [("bcc".data, 0), ("cc".data, 0), ("from".data, 0), ("reply-to".data, 0),
   ("resent-bcc".data, 0), ("resent-cc".data, 0), ("resent-from".data, 0),
   ("resent-reply-to".data, 0), ("resent-sender".data, 0), ("resent-to".data, 0),
   ("sender".data, 0), ("to".data, 0), ("approved".data, 0),
   ("disposition-notification-to".data, 0), ("delivered-to".data, 0),
   ("return-receipt-to".data, 0), ("mail-reply-to".data, 0),
   ("mail-followup-to".data, 0),
   ("comments".data, 1), ("keywords".data, 1), ("subject".data, 1),
   ("mime-version".data, 1), ("content-description".data, 1),
   ("user-agent".data, 1),
   ("date".data, 2), ("resent-date".data, 2), ("expires".data, 2),
   ("injection-date".data, 2), ("nntp-posting-date".data, 2),
   ("message-id".data, 3), ("resent-message-id".data, 3),
   ("Content-Transfer-Encoding".data, 1)]

/-- The spellings map of structuredHeaders.js (set by addHeader only). -/
def shSpellings : List (Str × Str) :=
  [("bcc".data, "Bcc".data), ("cc".data, "Cc".data), ("from".data, "From".data),
   ("reply-to".data, "Reply-To".data), ("resent-bcc".data, "Resent-Bcc".data),
   ("resent-cc".data, "Resent-Cc".data), ("resent-from".data, "Resent-From".data),
   ("resent-reply-to".data, "Resent-Reply-To".data),
   ("resent-sender".data, "Resent-Sender".data), ("resent-to".data, "Resent-To".data),
   ("sender".data, "Sender".data), ("to".data, "To".data),
   ("approved".data, "Approved".data),
   ("disposition-notification-to".data, "Disposition-Notification-To".data),
   ("delivered-to".data, "Delivered-To".data),
   ("return-receipt-to".data, "Return-Receipt-To".data),
   ("mail-reply-to".data, "Mail-Reply-To".data),
   ("mail-followup-to".data, "Mail-Followup-To".data),
   ("comments".data, "Comments".data), ("keywords".data, "Keywords".data),
   ("subject".data, "Subject".data), ("mime-version".data, "MIME-Version".data),
   ("content-description".data, "Content-Description".data),
   ("user-agent".data, "User-Agent".data),
   ("date".data, "Date".data), ("resent-date".data, "Resent-Date".data),
   ("expires".data, "Expires".data), ("injection-date".data, "Injection-Date".data),
   ("nntp-posting-date".data, "NNTP-Posting-Date".data),
   ("message-id".data, "Message-ID".data),
   ("resent-message-id".data, "Resent-Message-ID".data)]

/-- The mutable state of headerparser.js's structured decoding support:
    its structuredDecoders map, the (shared) preferredSpellings map and
    the forbiddenHeaders set. -/
structure DecoderRegistry where
  structuredDecoders : List (Str × Nat)
  preferredSpellings : List (Str × Str)
  forbiddenHeaders : List Str
deriving Repr, DecidableEq

/-- addStructuredDecoder from headerparser.js: a forbidden (built-in)
    lowercased name throws (none) before any mutation; otherwise the
    decoder is set and a missing preferred spelling recorded. -/
def addStructuredDecoder (reg : DecoderRegistry) (header : Str) (decoder : Nat) :
    Option DecoderRegistry :=
  let lowerHeader := toLowerStr header
  if lowerHeader ∈ reg.forbiddenHeaders then none
  else
    some { reg with
      structuredDecoders := aset reg.structuredDecoders lowerHeader decoder,
      preferredSpellings := asetIfAbsent reg.preferredSpellings lowerHeader header }

/-- The headerparser.js module-load loop: addStructuredDecoder on every
    structuredHeaders decoder entry, then add its lowercased name to
    forbiddenHeaders.  none would mean the load itself threw (it does
    not: the keys are pairwise distinct after lowercasing). -/
def initHeaderparser : Option DecoderRegistry :=
  shDecoders.foldl
    (fun acc p =>
      acc.bind (fun reg =>
        (addStructuredDecoder reg p.1 p.2).map (fun reg2 =>
          { reg2 with forbiddenHeaders := reg2.forbiddenHeaders ++ [toLowerStr p.1] })))
    (some { structuredDecoders := [], preferredSpellings := shSpellings,
            forbiddenHeaders := [] })

/-- The headerparser registry right after module load. -/
def hpRegistry : DecoderRegistry :=
  initHeaderparser.getD
    { structuredDecoders := [], preferredSpellings := [], forbiddenHeaders := [] }

/-- The mutable state of the headeremitter module's encoder support. -/
structure EncoderRegistry where
  encoders : List (Str × Nat)
  preferredSpellings : List (Str × Str)
deriving Repr, DecidableEq

/-- addStructuredEncoder from the headeremitter module: set the encoder
    under the lowercased name and record a missing preferred spelling.
    The source has no forbidden-name check and no throw path, so the
    translation is a total function. -/
def addStructuredEncoder (reg : EncoderRegistry) (header : Str) (encoder : Nat) :
    EncoderRegistry :=
  let lowerName := toLowerStr header
  { encoders := aset reg.encoders lowerName encoder,
    preferredSpellings := asetIfAbsent reg.preferredSpellings lowerName header }

/-- The headeremitter registry right after module load (the loop folds
    addStructuredEncoder over the structuredHeaders encoders). -/
def emRegistry : EncoderRegistry :=
  shEncoders.foldl (fun reg p => addStructuredEncoder reg p.1 p.2)
    { encoders := [], preferredSpellings := shSpellings }

/-! ## mimeparser.js : the MIME parser -/

/-- String.lastIndexOf(ch, bound) restricted to indices 0..bound: the
    greatest index i ≤ bound with s[i] = ch.  The ECMAScript clamp of a
    negative fromIndex to 0 means index 0 is always examined. -/
def lastIndexOfUpTo (ch : Char) (s : Str) : Nat → Option Nat
  | 0 => if s[0]? = some ch then some 0 else none
  | i+1 => if s[i+1]? = some ch then some (i+1) else lastIndexOfUpTo ch s i

/-- conditionToEndOnCRLF from mimeparser.js: split the buffer after the
    last line-ending character, not counting a CR in final position
    (which may be half of a CRLF).  The fromIndex length-2 of the CR
    search clamps to 0, so a buffer that is a single CR is still split
    after it. -/
def conditionToEndOnCRLF (buffer : Str) : Str × Str :=
  if buffer.length = 0 then ([], [])
  else
    let lastCR : Int := (lastIndexOfUpTo '\r' buffer (buffer.length - 2)).elim (-1) Int.ofNat
    let lastLF : Int := (lastIndexOfUpTo '\n' buffer (buffer.length - 1)).elim (-1) Int.ofNat
    let e : Int := if lastLF > lastCR then lastLF else lastCR
    (buffer.take (Int.toNat (e + 1)), buffer.drop (Int.toNat (e + 1)))

/-- mpart_no_leak_crlf from _startBody: withhold a trailing (CR)LF and
    everything after the last line ending, so a CRLF directly before a
    boundary is never delivered to a subpart. -/
def mpartNoLeakCRLF (buffer : Str) (more : Bool) : Str × Str :=
  let sp0 := buffer.length
  let sp1 := if more ∧ buffer.getLast? = some '\n' then sp0 - 1 else sp0
  let sp2 := if more ∧ 1 ≤ sp1 ∧ buffer[sp1 - 1]? = some '\r' then sp1 - 1 else sp1
  let res := conditionToEndOnCRLF (buffer.take sp2)
  (res.1, res.2 ++ buffer.drop sp2)

/-- The negative lookahead of the header-line split regex after a CRLF
    or LF: not followed by space or tab (end of input passes). -/
def lookNoWsp (rest : Str) : Bool :=
  match rest with
  | c :: _ => !(isSpaceTab c)
  | [] => true

/-- The negative lookahead after a lone CR: not followed by space, tab
    or LF. -/
def lookNoWspLf (rest : Str) : Bool :=
  match rest with
  | c :: _ => !(isSpaceTab c || c == '\n')
  | [] => true

/-- The header-line splitter of StructuredHeaders: split at a CRLF or LF
    not followed by space/tab, or a lone CR not followed by
    space/tab/LF (the split regex with its two alternatives and
    lookaheads); separators are removed, continuation line endings stay
    inside the line. -/
def splitHeaderGo : Str → Str → List Str
  | [], cur => [cur.reverse]
  | '\r' :: '\n' :: rest, cur =>
    if lookNoWsp rest then cur.reverse :: splitHeaderGo rest []
    else splitHeaderGo rest ('\n' :: '\r' :: cur)
  | '\r' :: rest, cur =>
    if lookNoWspLf rest then cur.reverse :: splitHeaderGo rest []
    else splitHeaderGo rest ('\r' :: cur)
  | '\n' :: rest, cur =>
    if lookNoWsp rest then cur.reverse :: splitHeaderGo rest []
    else splitHeaderGo rest ('\n' :: cur)
  | c :: rest, cur => splitHeaderGo rest (c :: cur)

/-- rawHeaderText.split of the header-line regex. -/
def splitHeaderLines (s : Str) : List Str := splitHeaderGo s []

/-- hay.indexOf(needle): the first index where needle occurs. -/
def strIndexOfStr (needle : Str) : Str → Option Nat
  | [] => if needle.isEmpty then some 0 else none
  | c :: rest =>
    if needle.isPrefixOf (c :: rest) then some 0
    else (strIndexOfStr needle rest).map (· + 1)

/-- The tail [ \t]* of the multipart boundary regex followed by a line
    ending or the end of input; the greedy star is exact because a line
    ending is never a space or tab. -/
def mpEnd (s : Str) : Option Nat :=
  let ws := (s.takeWhile isSpaceTab).length
  match s.drop ws with
  | '\r' :: '\n' :: _ => some (ws + 2)
  | '\r' :: _ => some (ws + 1)
  | '\n' :: _ => some (ws + 1)
  | [] => some ws
  | _ => none

/-- The part of the multipart boundary regex after group 1: two hyphens,
    the (escaped, hence literal) boundary, the optional terminator
    hyphens (group 2, greedy with fallback), then whitespace and a line
    ending or the end.  Returns the consumed length and whether group 2
    matched. -/
def mpTail (boundary : Str) (rest : Str) : Option (Nat × Bool) :=
  match rest with
  | '-' :: '-' :: r2 =>
    if boundary.isPrefixOf r2 then
      let r3 := r2.drop boundary.length
      (match r3 with
       | '-' :: '-' :: r4 => (mpEnd r4).map (fun l => (2 + boundary.length + 2 + l, true))
       | _ => none) <|>
      (mpEnd r3).map (fun l => (2 + boundary.length + l, false))
    else none
  | _ => none

/-- One attempt of the multipart split regex at a position: group 1
    tries CRLF, then CR, then LF, and (at the start of the string only)
    the empty anchor match, each followed by the tail.  Returns (length,
    group 1 text, group 2 matched). -/
def mpMatchHere (atStart : Bool) (boundary s : Str) : Option (Nat × Str × Bool) :=
  (match s with
   | '\r' :: '\n' :: r => (mpTail boundary r).map (fun t => (2 + t.1, ['\r', '\n'], t.2))
   | _ => none) <|>
  (match s with
   | '\r' :: r => (mpTail boundary r).map (fun t => (1 + t.1, ['\r'], t.2))
   | _ => none) <|>
  (match s with
   | '\n' :: r => (mpTail boundary r).map (fun t => (1 + t.1, ['\n'], t.2))
   | _ => none) <|>
  (if atStart then (mpTail boundary s).map (fun t => (t.1, ([] : Str), t.2)) else none)

/-- exec of the multipart split regex: the leftmost match as (index,
    length, group 1, group 2). -/
def mpScan (boundary : Str) : Bool → Str → Option (Nat × Nat × Str × Bool)
  | atStart, [] => (mpMatchHere atStart boundary []).map (fun m => (0, m))
  | atStart, c :: rest =>
    match mpMatchHere atStart boundary (c :: rest) with
    | some m => some (0, m)
    | none => (mpScan boundary false rest).map (fun r => (r.1 + 1, r.2))

/-- One position of the doubled-line-ending alternative of the
    header-end regex: a line ending (CRLF preferred over a single
    character) immediately repeated via the backreference. -/
def dblLineMatch : Str → Option Nat
  | '\r' :: '\n' :: '\r' :: '\n' :: _ => some 4
  | '\r' :: '\r' :: _ => some 2
  | '\n' :: '\n' :: _ => some 2
  | _ => none

/-- The scan for the doubled-line-ending alternative. -/
def dblScan : Str → Option (Nat × Nat)
  | [] => none
  | c :: rest =>
    match dblLineMatch (c :: rest) with
    | some len => some (0, len)
    | none => (dblScan rest).map (fun r => (r.1 + 1, r.2))

/-- The header-end regex of _dispatchData: a line ending at the very
    start of the data (no headers at all; the anchored alternative comes
    first), else the leftmost doubled line ending.  Returns the match
    index and length. -/
def headerEndSearch (s : Str) : Option (Nat × Nat) :=
  match s with
  | '\r' :: '\n' :: _ => some (0, 2)
  | '\r' :: _ => some (0, 1)
  | '\n' :: _ => some (0, 1)
  | _ => dblScan s

/-- The parser options of MimeParser with their defaults (onerror is the
    swallowing default: emitter callbacks cannot throw in this model). -/
structure POptions where
  pruneat : Str := []
  bodyformat : Str := "nodecode".data
  strformat : Str := "binarystring".data
  stripcontinuations : Bool := true
  charset : Str := []
  forceCharset : Bool := false
deriving Repr, DecidableEq

/-- The observable state of a StructuredHeaders object: the raw header
    text, the multi-map of lowercased names to raw value arrays, and the
    charset property.  The parser always constructs it from options that
    carry the charset property, so charset starts as that string (the
    branch for options without one is unreachable here). -/
structure SHeaders where
  rawHeaderText : Str
  rawHeaders : List (Str × List Str)
  charset : Str
deriving Repr, DecidableEq

/-- headers.get(header).push(val) / headers.set(header, [val]) on the
    raw-headers multi-map. -/
def mmapPush (m : List (Str × List Str)) (k : Str) (v : Str) : List (Str × List Str) :=
  match aget m k with
  | some vs => aset m k (vs ++ [v])
  | none => m ++ [(k, [v])]

/-- The StructuredHeaders constructor: split into header lines, drop a
    leading mbox From_ delimiter (adjusting rawHeaderText), and build the
    multi-map from colon-split lines with trimmed values (line endings
    removed from values when stripcontinuations), lowercased trimmed
    names, empty names omitted. -/
def structuredHeadersNew (rawHeaderText : Str) (opts : POptions) : SHeaders :=
  let values0 := splitHeaderLines rawHeaderText
  let mbox := values0.length > 0 ∧ (values0.headD []).take 5 = "From ".data
  let values := if mbox then values0.tail else values0
  let rawText :=
    if mbox then
      if values = [] then []
      else
        match strIndexOfStr (values.headD []) rawHeaderText with
        | some i => rawHeaderText.drop i
        | none => rawHeaderText
    else rawHeaderText
  let headers := values.foldl (fun m line =>
    let p : Str × Str :=
      match indexOfChar ':' line with
      | some colon =>
        let v := trimJs (line.drop (colon + 1))
        (line.take colon,
         if opts.stripcontinuations then v.filter (fun c => !(c == '\r' || c == '\n')) else v)
      | none => (line, [])
    let header := toLowerStr (trimJs p.1)
    if header = [] then m else mmapPush m header p.2) []
  { rawHeaderText := rawText, rawHeaders := headers, charset := opts.charset }

/-- convert8BitHeader from headerparser.js: a value with no byte in the
    0x80..0xff class passes through; otherwise decode the bytes as UTF-8
    (fatal exactly when a non-UTF fallback charset is present), falling
    back to a lossy decode with the fallback charset.  none models the
    TextDecoder constructor throw on an unknown fallback label, which the
    source does not catch. -/
def convert8BitHeader (td : TextDecoding) (headerValue fallbackCharset : Str) :
    Option Str :=
  if headerValue.any (fun c => 0x80 ≤ c.toNat && c.toNat ≤ 0xff) then
    let bytes := stringToTypedArray headerValue
    let hasFallback := fallbackCharset ≠ [] ∧
      ¬ ("utf".data.isPrefixOf (toLowerStr fallbackCharset))
    if hasFallback then
      match td.decodeFatal "utf-8".data bytes with
      | some v => some v
      | none =>
        if td.known fallbackCharset then some (td.decodeLossy fallbackCharset bytes)
        else none
    else some (td.decodeLossy "utf-8".data bytes)
  else some headerValue

/-- The structured Content-Type value: the params map of lowercased
    names plus the mediatype and subtype properties. -/
structure CType where
  mediatype : Str
  subtype : Str
  params : List (Str × Str)
deriving Repr, DecidableEq

/-- The type property of the structure (mediatype/subtype). -/
def CType.typeFull (c : CType) : Str := c.mediatype ++ '/' :: c.subtype

/-- parseContentType from structuredHeaders.js: parseParameterHeader on
    the first value with RFC 2047 and RFC 2231 decoding both off; a
    preSemi without exactly one slash falls back to text/plain with no
    parameters; the type parts and the parameter names are lowercased. -/
def parseContentType (td : TextDecoding) (value : List Str) : Option CType :=
  (parseParameterHeader td (value.headD []) false false).map (fun r =>
    let parts := splitOnChar '/' r.1
    if parts.length ≠ 2 then
      { mediatype := "text".data, subtype := "plain".data, params := [] }
    else
      { mediatype := toLowerStr (parts.headD []),
        subtype := toLowerStr (parts.getD 1 []),
        params := r.2.foldl (fun m p => aset m (toLowerStr p.1) p.2) [] })

/-- StructuredHeaders.get for Content-Type as the parser consumes it:
    the raw values converted by convert8BitHeader under the current
    charset, then the registered parseContentType decoder (which cannot
    throw with both decodings off, so the catch fallback of get is dead
    here).  Outer none: a propagated conversion throw or fuel
    exhaustion; inner none: the header is absent. -/
def shGetContentType (td : TextDecoding) (hs : SHeaders) : Option (Option CType) := do
  match aget hs.rawHeaders "content-type".data with
  | none => pure none
  | some vals => do
    let conv ← vals.mapM (fun v => convert8BitHeader td v hs.charset)
    let ct ← parseContentType td conv
    pure (some ct)

/-- _extractHeader('content-transfer-encoding', ''): the structured get
    (converted values, first one lowercased) when the header is present,
    else the decoder applied to [''], which is the empty string. -/
def extractCTE (td : TextDecoding) (hs : SHeaders) : Option Str :=
  match aget hs.rawHeaders "content-transfer-encoding".data with
  | some vals =>
    (vals.mapM (fun v => convert8BitHeader td v hs.charset)).map
      (fun conv => toLowerStr (conv.headD []))
  | none => some []

/-- The parser states PARSING_HEADERS, SEND_TO_BLACK_HOLE,
    SEND_TO_EMITTER and SEND_TO_SUBPARSER. -/
inductive PMode where
  | headers
  | blackhole
  | emitter
  | toSub
deriving Repr, DecidableEq

/-- The _convertData function installed on a parser: mpart_no_leak_crlf,
    decode_qp or decode_base64 (the ContentDecoders table). -/
inductive ConvKind where
  | mpart
  | qp
  | b64
deriving Repr, DecidableEq

/-- The _decoder installed on a parser: the identity decoder used for
    unicode output with an empty charset, or a TextDecoder with its
    charset and streaming buffer. -/
inductive DecKind where
  | identity
  | charsetDec (cs : Str) (pending : List Nat)
deriving Repr, DecidableEq

/-- The non-recursive fields of a MimeParser instance.  _count persists
    across resetParser, as do _headers, _defaultContentType and _charset
    (charsetDecided here). -/
structure PCore where
  state : PMode
  holdData : Str
  headerData : Str
  triggeredCall : Bool
  splitBoundary : Option Str
  subPartNum : Option Str
  savedBuffer : Str
  convertData : Option ConvKind
  headers : Option SHeaders
  hdrContentType : Option CType
  count : Nat
  defaultContentType : Option Str
  charsetDecided : Str
  decoder : Option DecKind
deriving Repr, DecidableEq

/-- A MimeParser instance: its fields and its optional subparser. -/
inductive Parser where
  | mk (core : PCore) (sub : Option Parser)

def Parser.core : Parser → PCore
  | .mk c _ => c

def Parser.sub : Parser → Option Parser
  | .mk _ s => s

def Parser.withCore (p : Parser) (c : PCore) : Parser := .mk c p.sub

/-- The field values established by resetParser on a fresh instance. -/
def initCore : PCore :=
  { state := .headers, holdData := [], headerData := [], triggeredCall := false,
    splitBoundary := none, subPartNum := none, savedBuffer := [],
    convertData := none, headers := none, hdrContentType := none, count := 0,
    defaultContentType := none, charsetDecided := [], decoder := none }

/-- resetParser from mimeparser.js: reset the streaming state (including
    the subparser reference); _count, _headers, the content type, the
    default content type and the decided charset persist. -/
def resetCore (c : PCore) : PCore :=
  { c with state := .headers, holdData := [], headerData := [],
           triggeredCall := false, splitBoundary := none, subPartNum := none,
           savedBuffer := [], convertData := none, decoder := none }

def Parser.reset (p : Parser) : Parser := .mk (resetCore p.core) none

/-- A fresh MimeParser (the constructor ends in resetParser). -/
def initParser : Parser := .mk initCore none

/-- The data payload delivered to the emitter: a binary string or a
    typed array. -/
inductive PData where
  | str (s : Str)
  | arr (bytes : List Nat)
deriving Repr, DecidableEq

def PData.len : PData → Nat
  | .str s => s.length
  | .arr a => a.length

def PData.asStr : PData → Str
  | .str s => s
  | .arr a => typedArrayToString a

/-- The emitter callbacks, as an event trace. -/
inductive MEvent where
  | startMessage
  | endMessage
  | startPart (partNum : Str) (headers : SHeaders)
  | endPart (partNum : Str)
  | deliverPartData (partNum : Str) (data : PData)
deriving Repr, DecidableEq

/-- _willIgnorePart: with a pruneat option, a part is ignored unless it
    starts with the pruneat string followed by nothing, a dot or a
    dollar. -/
def willIgnorePart (opts : POptions) (part : Str) : Bool :=
  if opts.pruneat ≠ [] then
    let m := opts.pruneat
    let start := part.take m.length
    decide (start ≠ m ∨ (m.length < part.length ∧
      part.getD m.length ' ' ≠ '$' ∧ part.getD m.length ' ' ≠ '.'))
  else false

/-- _callEmitter for a callback whose first argument is a part number:
    the pruneat check can drop the call. -/
def emitPart (opts : POptions) (e : MEvent) (pn : Str) : List MEvent :=
  if willIgnorePart opts pn then [] else [e]

/-- _parseHeaders from mimeparser.js: construct the StructuredHeaders,
    take its structured Content-Type (or parse the default content type,
    empty or absent meaning text/plain), decide the part charset
    (force-charset, else the charset parameter, else the option), and
    store it on the headers.  Returns (headers, contentType, charset). -/
def parseHeadersStep (td : TextDecoding) (opts : POptions) (c : PCore) :
    Option (SHeaders × CType × Str) := do
  let hs := structuredHeadersNew c.headerData opts
  let ctOpt ← shGetContentType td hs
  let ct ←
    match ctOpt with
    | some ct => pure ct
    | none =>
      let dct :=
        match c.defaultContentType with
        | some s => if s = [] then "text/plain".data else s
        | none => "text/plain".data
      parseContentType td [dct]
  let charset :=
    if opts.forceCharset then opts.charset
    else
      match aget ct.params "charset".data with
      | some cs => cs
      | none => opts.charset
  pure ({ hs with charset := charset }, ct, charset)

/-- The ContentDecoders table lookup of _startBody. -/
def cteConvert (cte : Str) : Option ConvKind :=
  if cte = "quoted-printable".data then some ConvKind.qp
  else if cte = "base64".data then some ConvKind.b64
  else none

/-- The decoder setup at the end of _startBody (skipped by its early
    returns): for unicode output of a text part, a TextDecoder on the
    decided charset (none models the constructor throw on an unknown
    label) or the identity decoder when the charset is empty; otherwise
    null. -/
def decoderStep (td : TextDecoding) (opts : POptions) (c : PCore)
    (sub : Option Parser) (ct : CType) : Option Parser :=
  if opts.strformat = "unicode".data ∧ ct.mediatype = "text".data then
    if c.charsetDecided ≠ [] then
      if td.known c.charsetDecided then
        some (.mk { c with decoder := some (.charsetDec c.charsetDecided []) } sub)
      else none
    else some (.mk { c with decoder := some DecKind.identity } sub)
  else some (.mk { c with decoder := none } sub)

/-- _startBody from mimeparser.js: decide the state, install the split
    regex (kept as its boundary string), the subparser, the data
    conversion and the decoder, per the content type. -/
def startBody (td : TextDecoding) (opts : POptions) (c : PCore)
    (sub0 : Option Parser) (ct : CType) (hs : SHeaders) (partNum : Str) :
    Option Parser :=
  if opts.bodyformat = "raw".data ∧ partNum = opts.pruneat then
    some (.mk { c with state := .emitter } sub0)
  else if ct.mediatype = "multipart".data then
    match aget ct.params "boundary".data with
    | none => some (.mk { c with state := .blackhole } sub0)
    | some boundary =>
      let subC :=
        if ct.subtype = "digest".data then
          { initCore with defaultContentType := some "message/rfc822".data }
        else initCore
      decoderStep td opts
        { c with splitBoundary := some boundary, state := .blackhole,
                 convertData := some ConvKind.mpart }
        (some (.mk subC none)) ct
  else if ct.typeFull = "message/rfc822".data ∨ ct.typeFull = "message/global".data ∨
      ct.typeFull = "message/news".data then do
    let cte ← extractCTE td hs
    decoderStep td opts
      { c with state := .toSub, subPartNum := some (partNum ++ "$".data),
               convertData := cteConvert cte }
      (some (.mk initCore none)) ct
  else if opts.bodyformat = "decode".data then do
    let cte ← extractCTE td hs
    decoderStep td opts { c with state := .emitter, convertData := cteConvert cte } sub0 ct
  else
    decoderStep td opts { c with state := .emitter } sub0 ct

/-- Running the installed _convertData function. -/
def runConvert : ConvKind → Str → Bool → Option (Str × Str)
  | ConvKind.mpart, buffer, more => some (mpartNoLeakCRLF buffer more)
  | ConvKind.qp, buffer, more => some (decode_qp buffer more)
  | ConvKind.b64, buffer, more => decode_base64 buffer more

/-- _coerceData: binary string passthrough; otherwise build the typed
    array, decoding it for unicode via the installed decoder (updating
    its streaming buffer), or returning the array itself for typedarray
    output or for unicode output with no decoder. -/
def coerceData (td : TextDecoding) (decoder : Option DecKind) (buffer : Str)
    (type : Str) (more : Bool) : Option (PData × Option DecKind) :=
  if type = "binarystring".data then some (.str buffer, decoder)
  else
    let arr := stringToTypedArray buffer
    if type = "unicode".data then
      match decoder with
      | some (.charsetDec cs pending) =>
        let r := td.decodeStream cs pending arr more
        some (.str r.1, some (.charsetDec cs r.2))
      | some .identity => some (.str (typedArrayToString arr), some DecKind.identity)
      | none => some (.arr arr, none)
    else if type = "typedarray".data then some (.arr arr, decoder)
    else none

/-- _applyDataConversion: prepend the saved buffer and run _convertData
    (with moreToCome), then coerce.  Returns the data and the updated
    core (saved buffer and decoder state). -/
def applyDataConversion (td : TextDecoding) (c : PCore) (buf : Str) (type : Str) :
    Option (PData × PCore) :=
  match c.convertData with
  | some ck => do
    let r ← runConvert ck (c.savedBuffer ++ buf) true
    let (d, dk) ← coerceData td c.decoder r.1 type true
    pure (d, { c with savedBuffer := r.2, decoder := dk })
  | none => do
    let (d, dk) ← coerceData td c.decoder buf type true
    pure (d, { c with decoder := dk })

/-- The requests a parser instance receives: _dispatchData,
    _dispatchEOF, and the _whenMultipart split handler (kept as a
    request so the three mutually recursive methods form one
    fuel-indexed function). -/
inductive PReq where
  | data (partNum buffer : Str) (checkSplit : Bool)
  | eof (partNum : Str)
  | msplit (partNum g1 : Str) (g2 : Bool)
  | body (partNum buffer : Str)

/-- The CRLF strip applied to the saved buffer by _whenMultipart when
    the boundary matched at the start of a packet (group 1 empty). -/
def stripSavedCRLF (s : Str) : Str :=
  let t1 := if s.getLast? = some '\n' then s.dropLast else s
  if t1 ≠ [] ∧ t1.getLast? = some '\r' then t1.dropLast else t1

/-- The internal dispatch of MimeParser: _dispatchData, _dispatchEOF and
    _whenMultipart as one fuel-indexed function (they recurse into each
    other and into subparsers).  Returns the emitted events and the new
    parser; none models fuel exhaustion or a propagated exception
    (decode_base64 throw, TextDecoder constructor throw). -/
def pDispatch (td : TextDecoding) (opts : POptions) :
    Nat → Parser → PReq → Option (List MEvent × Parser)
  | 0, _, _ => none
  | fuel+1, p, .data partNum buffer checkSplit =>
    if p.core.state = PMode.headers then
      let hd := p.core.headerData ++ buffer
      match headerEndSearch hd with
      | none => some ([], p.withCore { p.core with headerData := hd })
      | some (idx, len) => do
        let c1 := { p.core with headerData := hd.take idx }
        let buffer2 := hd.drop (idx + len)
        let (hs, ct, cs) ← parseHeadersStep td opts c1
        let c2 := { c1 with headers := some hs, hdrContentType := some ct,
                            charsetDecided := cs }
        let evStart := emitPart opts (.startPart partNum hs) partNum
        let p2 ← startBody td opts c2 p.sub ct hs partNum
        let (evs, p3) ← pDispatch td opts fuel p2 (.data partNum buffer2 checkSplit)
        pure (evStart ++ evs, p3)
    else if checkSplit ∧ p.core.splitBoundary.isSome then
      match mpScan (p.core.splitBoundary.getD []) true buffer with
      | some (start, len, g1, g2) => do
        let (evsPre, p1) ←
          if start > 0 then pDispatch td opts fuel p (.data partNum (buffer.take start) false)
          else pure ([], p)
        let (evsSplit, p2) ← pDispatch td opts fuel p1 (.msplit partNum g1 g2)
        let rest := buffer.drop (start + len)
        let (evsRest, p3) ←
          if rest.length > 0 then pDispatch td opts fuel p2 (.data partNum rest true)
          else pure ([], p2)
        pure (evsPre ++ evsSplit ++ evsRest, p3)
      | none => pDispatch td opts fuel p (.body partNum buffer)
    else pDispatch td opts fuel p (.body partNum buffer)
  | fuel+1, p, .eof partNum =>
    if p.core.state = PMode.headers then do
      let (hs, ct, cs) ← parseHeadersStep td opts p.core
      let c2 := { p.core with headers := some hs, hdrContentType := some ct,
                              charsetDecided := cs }
      pure (emitPart opts (.startPart partNum hs) partNum ++
            emitPart opts (.endPart partNum) partNum, p.withCore c2)
    else if p.core.state = PMode.toSub then do
      let c := p.core
      let spn := c.subPartNum.getD []
      let sp0 ← match p.sub with
        | some sp => pure sp
        | none => none
      let (evs1, sp1) ←
        if c.convertData.isSome ∧ c.savedBuffer ≠ [] then do
          let r ← runConvert (c.convertData.getD ConvKind.mpart) c.savedBuffer false
          pDispatch td opts fuel sp0 (.data spn r.1 true)
        else pure ([], sp0)
      let (evs2, _) ← pDispatch td opts fuel sp1 (.eof spn)
      pure (evs1 ++ evs2 ++ emitPart opts (.endPart partNum) partNum,
            Parser.mk c none)
    else if p.core.convertData.isSome ∧ p.core.savedBuffer ≠ [] then do
      let c := p.core
      let r ← runConvert (c.convertData.getD ConvKind.mpart) c.savedBuffer false
      let (d, dk) ← coerceData td c.decoder r.1 opts.strformat false
      let evs := if d.len > 0 then emitPart opts (.deliverPartData partNum d) partNum else []
      pure (evs ++ emitPart opts (.endPart partNum) partNum,
            p.withCore { c with decoder := dk })
    else
      pure (emitPart opts (.endPart partNum) partNum, p)
  | fuel+1, p, .msplit partNum g1 g2 => do
    let c := p.core
    let pn := if partNum ≠ [] then partNum ++ ".".data else partNum
    let (evs1, c1, sub1) ←
      match c.subPartNum with
      | none => pure (([] : List MEvent), { c with count := 1 }, p.sub)
      | some spn => do
        let sb := if c.savedBuffer ≠ [] ∧ g1 = [] then stripSavedCRLF c.savedBuffer
                  else c.savedBuffer
        let sp0 ← match p.sub with
          | some sp => pure sp
          | none => none
        let (evsD, sp1) ←
          if sb ≠ [] then pDispatch td opts fuel sp0 (.data spn sb true)
          else pure ([], sp0)
        let (evsE, sp2) ← pDispatch td opts fuel sp1 (.eof spn)
        pure (evsD ++ evsE, c, some sp2)
    let c2 := { c1 with savedBuffer := [] }
    if ¬ g2 then
      let sub2 := (sub1.getD initParser).reset
      pure (evs1, Parser.mk
        { c2 with state := .toSub, subPartNum := some (pn ++ natToStr c2.count),
                  count := c2.count + 1 } (some sub2))
    else
      pure (evs1, Parser.mk { c2 with splitBoundary := none, state := .blackhole } sub1)

  | fuel+1, p, .body partNum buffer =>
    match p.core.state with
    | .blackhole => some ([], p)
    | .emitter =>
      if opts.bodyformat = "none".data ∨ willIgnorePart opts partNum then some ([], p)
      else do
        let (d, c2) ← applyDataConversion td p.core buffer opts.strformat
        let evs := if d.len > 0 then emitPart opts (.deliverPartData partNum d) partNum else []
        pure (evs, p.withCore c2)
    | .toSub => do
      let (d, c2) ← applyDataConversion td p.core buffer "binarystring".data
      if d.len > 0 then do
        let sp0 ← match p.sub with
          | some sp => pure sp
          | none => none
        let (evs, sp2) ← pDispatch td opts fuel sp0 (.data (c2.subPartNum.getD []) d.asStr true)
        pure (evs, Parser.mk c2 (some sp2))
      else pure ([], p.withCore c2)
    | .headers => some ([], p)

/-- deliverData from mimeparser.js: prepend held data, condition the
    buffer to end on a line ending, skip empty buffers, fire
    startMessage once, and dispatch to the root part. -/
def deliverData (td : TextDecoding) (opts : POptions) (fuel : Nat) (p : Parser)
    (buffer0 : Str) : Option (List MEvent × Parser) :=
  let buffer1 := p.core.holdData ++ buffer0
  let (buffer2, hold2) :=
    if buffer1.length > 0 then conditionToEndOnCRLF buffer1 else (buffer1, [])
  let p2 := p.withCore { p.core with holdData := hold2 }
  if buffer2.length = 0 then some ([], p2)
  else
    let (evs0, p3) :=
      if ¬ p2.core.triggeredCall then
        ([MEvent.startMessage], p2.withCore { p2.core with triggeredCall := true })
      else ([], p2)
    (pDispatch td opts fuel p3 (.data [] buffer2 true)).map (fun r => (evs0 ++ r.1, r.2))

/-- deliverEOF from mimeparser.js: fire startMessage if still pending,
    flush held data, signal EOF to the root part, fire endMessage. -/
def deliverEOF (td : TextDecoding) (opts : POptions) (fuel : Nat) (p : Parser) :
    Option (List MEvent × Parser) := do
  let (evs0, p1) :=
    if ¬ p.core.triggeredCall then
      ([MEvent.startMessage], p.withCore { p.core with triggeredCall := true })
    else ([], p)
  let (evs1, p2) ←
    if p1.core.holdData ≠ [] then pDispatch td opts fuel p1 (.data [] p1.core.holdData true)
    else pure ([], p1)
  let (evs2, p3) ← pDispatch td opts fuel p2 (.eof [])
  pure (evs0 ++ evs1 ++ evs2 ++ [MEvent.endMessage], p3)

/-- Parse one whole message delivered in a single buffer followed by
    EOF, returning the emitted event trace.  The fuel bounds the
    dispatch recursion well above any possible number of steps for the
    input. -/
def parseMessage (td : TextDecoding) (opts : POptions) (msg : Str) :
    Option (List MEvent) := do
  let fuel := (msg.length + 64) * 16
  let (evs1, p1) ← deliverData td opts fuel initParser msg
  let (evs2, _) ← deliverEOF td opts fuel p1
  pure (evs1 ++ evs2)

/-- The message of claim C1: multipart/mixed with boundary frontier, two
    separator boundary lines and one terminator line. -/
def c1msg : Str :=
  ("Content-Type: multipart/mixed; boundary=frontier\r\n\r\n" ++
   "--frontier\r\nbody1\r\n--frontier\r\nbody2\r\n--frontier--\r\n").data

/-- The event trace of c1msg reduced to callback names and part
    numbers. -/
def c1trace : Option (List (Str × Str)) :=
  (parseMessage noTD {} c1msg).map (fun evs =>
    evs.map (fun e =>
      match e with
      | .startMessage => ("startMessage".data, ([] : Str))
      | .endMessage => ("endMessage".data, [])
      | .startPart pn _ => ("startPart".data, pn)
      | .endPart pn => ("endPart".data, pn)
      | .deliverPartData pn _ => ("deliverPartData".data, pn)))

/-- Emitter run used to exhibit claim C4's failure: write a header name
    "To: " and then a 340-character token that cannot fit the default
    hard margin. -/
def c4run : Except Str Unit × EmState :=
  addText (addText (mkEmitter {}) "To: ".data true).2 (List.replicate 340 'a') false

/-! ## Theorems -/

/-- C10: the streaming octet decoders keep at most an incomplete base64
    quantum as carry: decode_qp's second component is always empty;
    decode_base64 with more=false returns an empty second component; and
    decode_base64 with more=true returns a second component of length at
    most 3 made of trailing base64-alphabet characters of the sanitized
    input. -/
theorem C10_theorem :
    (∀ (buffer : Str) (more : Bool), (decode_qp buffer more).2 = []) ∧
    (∀ (buffer : Str) (r : Str × Str), decode_base64 buffer false = some r → r.2 = []) ∧
    (∀ (buffer : Str) (r : Str × Str), decode_base64 buffer true = some r →
      r.2.length ≤ 3 ∧ (∀ c ∈ r.2, isB64Char c = true) ∧
      ∃ pre, b64Sanitize buffer = pre ++ r.2) := by
  refine ⟨fun buffer more => rfl, ?_, ?_⟩
  · intro buffer r h
    rcases Option.map_eq_some'.mp h with ⟨dec, -, hd⟩
    subst hd
    simp
  · intro buffer r h
    rcases Option.map_eq_some'.mp h with ⟨dec, -, hd⟩
    subst hd
    by_cases hex : (b64Sanitize buffer).length % 4 = 0
    · dsimp only
      rw [if_neg (by simp [hex])]
      exact ⟨by simp, by simp, ⟨b64Sanitize buffer, by simp⟩⟩
    · have hlt : (b64Sanitize buffer).length % 4 < 4 := Nat.mod_lt _ (by norm_num)
      have hle : (b64Sanitize buffer).length % 4 ≤ (b64Sanitize buffer).length :=
        Nat.mod_le _ _
      have hcond : ((b64Sanitize buffer).length % 4 != 0 && true) = true := by
        simp [hex]
      dsimp only
      rw [if_pos hcond]
      refine ⟨?_, ?_, ?_⟩
      · rw [List.length_drop]
        omega
      · intro c hc
        have hmem : c ∈ b64Sanitize buffer := List.drop_subset _ _ hc
        exact (List.mem_filter.mp hmem).2
      · exact ⟨(b64Sanitize buffer).take ((b64Sanitize buffer).length -
          (b64Sanitize buffer).length % 4), (List.take_append_drop _ _).symm⟩

/-- C10 witness: concrete instance of the decode_base64 carry invariant at
    buffer "QUJDREU" with more=true (carry "REU"), and of the empty-carry
    cases. -/
theorem C10_witness :
    ((decode_qp "ab=3D".data true).2 = []) ∧
    (("".data : Str) = []) ∧
    (("REU".data : Str).length ≤ 3 ∧ (∀ c ∈ ("REU".data : Str), isB64Char c = true) ∧
      ∃ pre, b64Sanitize "QUJDREU".data = pre ++ "REU".data) :=
  ⟨C10_theorem.1 "ab=3D".data true,
   C10_theorem.2.1 "QUJD".data ("ABC".data, "".data) (by decide),
   C10_theorem.2.2 "QUJDREU".data ("ABC".data, "REU".data) (by decide)⟩

/-- Every utf8Char is nonempty and begins with a non-continuation byte. -/
theorem utf8Char_head (c : Char) :
    ∃ b l, utf8Char c = b :: l ∧ isContinuationByte b = false := by
  unfold utf8Char
  by_cases h1 : c.toNat < 0x80
  · exact ⟨c.toNat, [], by simp [h1], by simp [isContinuationByte]; omega⟩
  · by_cases h2 : c.toNat < 0x800
    · exact ⟨0xC0 + c.toNat / 64, [0x80 + c.toNat % 64], by simp [h1, h2],
        by simp [isContinuationByte]; omega⟩
    · by_cases h3 : c.toNat < 0x10000
      · exact ⟨0xE0 + c.toNat / 4096,
          [0x80 + c.toNat / 64 % 64, 0x80 + c.toNat % 64], by simp [h1, h2, h3],
          by simp [isContinuationByte]; omega⟩
      · exact ⟨0xF0 + c.toNat / 262144,
          [0x80 + c.toNat / 4096 % 64, 0x80 + c.toNat / 64 % 64, 0x80 + c.toNat % 64],
          by simp [h1, h2, h3],
          by simp [isContinuationByte]; omega⟩

/-- The UTF-8 encoding of a string is empty or starts with a
    non-continuation byte. -/
theorem utf8Encode_start (text : Str) :
    (utf8Encode text).length ≤ 0 ∨
      isContinuationByte ((utf8Encode text).getD 0 0) = false := by
  cases text with
  | nil => left; simp [utf8Encode]
  | cons c cs =>
    right
    obtain ⟨b, l, hc, hb⟩ := utf8Char_head c
    simp [utf8Encode, hc, hb]

/-- backUpByte never moves forward. -/
theorem backUpByte_le (bytes : List Nat) (i : Nat) : backUpByte bytes i ≤ i := by
  induction i with
  | zero => simp [backUpByte]
  | succ j ih =>
    unfold backUpByte
    split
    · exact le_trans ih (Nat.le_succ j)
    · exact le_refl _

/-- Unfolding equation of backUpByte on a continuation byte. -/
theorem backUpByte_succ_cont (bytes : List Nat) (j : Nat)
    (hc : isContinuationByte (bytes.getD (j+1) 0) = true) :
    backUpByte bytes (j+1) = backUpByte bytes j := by
  simp only [backUpByte]
  rw [if_pos hc]

/-- Unfolding equation of backUpByte on a non-continuation byte. -/
theorem backUpByte_succ_stop (bytes : List Nat) (j : Nat)
    (hc : isContinuationByte (bytes.getD (j+1) 0) = false) :
    backUpByte bytes (j+1) = j + 1 := by
  simp only [backUpByte]
  rw [if_neg (by rw [hc]; decide)]

/-- If position s holds a non-continuation byte and s ≤ i, backUpByte
    stops at or after s, on a non-continuation byte. -/
theorem backUpByte_ge (bytes : List Nat) (s : Nat)
    (hs : isContinuationByte (bytes.getD s 0) = false) :
    ∀ i, s ≤ i → s ≤ backUpByte bytes i ∧
      isContinuationByte (bytes.getD (backUpByte bytes i) 0) = false := by
  intro i
  induction i with
  | zero =>
    intro hsi
    have hz : s = 0 := Nat.le_zero.mp hsi
    subst hz
    exact ⟨Nat.zero_le _, by simpa [backUpByte] using hs⟩
  | succ j ih =>
    intro hsi
    by_cases hc : isContinuationByte (bytes.getD (j+1) 0) = true
    · have hne : s ≠ j + 1 := by
        intro he
        rw [← he, hs] at hc
        exact Bool.false_ne_true hc
      have hsj : s ≤ j := Nat.lt_succ_iff.mp (lt_of_le_of_ne hsi hne)
      have hres := ih hsj
      rw [backUpByte_succ_cont bytes j hc]
      exact hres
    · have hcf : isContinuationByte (bytes.getD (j+1) 0) = false :=
        Bool.not_eq_true _ |>.mp hc
      rw [backUpByte_succ_stop bytes j hcf]
      exact ⟨hsi, hcf⟩

/-- When the counting-loop scan reports a split at j, the split index is
    at or after the word start, inside the byte array, and on a
    non-continuation byte (given that the word start is itself on a
    non-continuation byte). -/
theorem chunkScan_inl (bytes : List Nat) (start : Nat) (maxChars : Int)
    (hs : isContinuationByte (bytes.getD start 0) = false) :
    ∀ (fuel i : Nat) (b64Len qpLen : Int), start ≤ i →
      ∀ j u, chunkScan bytes start maxChars fuel i b64Len qpLen = Sum.inl (j, u) →
        start ≤ j ∧ j < bytes.length ∧
          isContinuationByte (bytes.getD j 0) = false := by
  intro fuel
  induction fuel with
  | zero =>
    intro i b64Len qpLen hi j u h
    simp [chunkScan] at h
  | succ n ih =>
    intro i b64Len qpLen hi j u h
    simp only [chunkScan] at h
    by_cases hlen : i < bytes.length
    · rw [if_pos hlen] at h
      repeat' split at h
      all_goals
        first
        | exact ih (i+1) _ _ (le_trans hi (Nat.le_succ i)) j u h
        | (injection h with hpair;
           have hj : backUpByte bytes i = j := congrArg Prod.fst hpair;
           subst hj;
           obtain ⟨hge, hnc⟩ := backUpByte_ge bytes start hs i hi;
           exact ⟨hge, lt_of_le_of_lt (backUpByte_le bytes i) hlen, hnc⟩)
    · rw [if_neg hlen] at h
      simp at h

/-- Structure of the word boundaries produced by chunkLoop: the list
    starts at the given start index, the covered slices concatenate to the
    byte array from the start index on, and every boundary after the first
    lies on a non-continuation byte. -/
theorem chunkLoop_props (bytes : List Nat) (maxCont : Int) :
    ∀ (fuel start : Nat) (maxChars : Int),
      (bytes.length ≤ start ∨ isContinuationByte (bytes.getD start 0) = false) →
      (∃ u tl, chunkLoop bytes maxCont fuel start maxChars = (start, u) :: tl) ∧
      (chunkSlices bytes (chunkLoop bytes maxCont fuel start maxChars)).flatten =
        bytes.drop start ∧
      ∀ p ∈ (chunkLoop bytes maxCont fuel start maxChars).tail,
        isContinuationByte (bytes.getD p.1 0) = false := by
  intro fuel
  induction fuel with
  | zero =>
    intro start maxChars hstart
    exact ⟨⟨false, [], rfl⟩, by simp [chunkLoop, chunkSlices], by simp [chunkLoop]⟩
  | succ n ih =>
    intro start maxChars hstart
    rcases hscan : chunkScan bytes start maxChars (bytes.length + 1) start 0 0 with ⟨j, u⟩ | u
    · have hs : isContinuationByte (bytes.getD start 0) = false := by
        rcases hstart with hlen | hnc
        · exfalso
          have : ¬ start < bytes.length := Nat.not_lt.mpr hlen
          simp [chunkScan, this] at hscan
        · exact hnc
      obtain ⟨hj1, hj2, hj3⟩ :=
        chunkScan_inl bytes start maxChars hs (bytes.length + 1) start 0 0
          (le_refl _) j u hscan
      obtain ⟨⟨u', tl', hcons'⟩, hjoin', htail'⟩ := ih j maxCont (Or.inr hj3)
      have hloop : chunkLoop bytes maxCont (n+1) start maxChars =
          (start, u) :: chunkLoop bytes maxCont n j maxCont := by
        simp [chunkLoop, hscan]
      refine ⟨⟨u, chunkLoop bytes maxCont n j maxCont, hloop⟩, ?_, ?_⟩
      · rw [hloop, hcons', chunkSlices, List.flatten_cons, ← hcons', hjoin']
        have hdj : bytes.drop j = (bytes.drop start).drop (j - start) := by
          rw [List.drop_drop]
          congr 1
          omega
        rw [hdj, List.take_append_drop]
      · rw [hloop]
        intro p hp
        simp only [List.tail_cons] at hp
        rw [hcons'] at hp
        rcases List.mem_cons.mp hp with hphead | hptail
        · rw [hphead]
          exact hj3
        · exact htail' p (by rw [hcons']; simpa using hptail)
    · exact ⟨⟨u, [], by simp [chunkLoop, hscan]⟩,
        by simp [chunkLoop, hscan, chunkSlices],
        by simp [chunkLoop, hscan]⟩

/-- C8: for every emitter state and input text, the encoded-words emitted
    by encodeRFC2047Phrase partition the UTF-8 encoding of the input at
    character boundaries only: the word slices concatenate to exactly the
    UTF-8 byte sequence, the first word starts at byte 0, and no split
    point between successive encoded-words falls on (immediately before) a
    UTF-8 continuation byte (a byte in 0x80..0xBF). -/
theorem C8_theorem (s : EmState) (text : Str) (mayBreakAfter : Bool) :
    encodeRFC2047Phrase s text mayBreakAfter =
      emitChunks (rfc2047Reserve s) (utf8Encode text) mayBreakAfter
        (encodeRFC2047Chunks s text) ∧
    (chunkSlices (utf8Encode text) (encodeRFC2047Chunks s text)).flatten =
      utf8Encode text ∧
    (encodeRFC2047Chunks s text).head?.map Prod.fst = some 0 ∧
    ∀ p ∈ (encodeRFC2047Chunks s text).tail,
      isContinuationByte ((utf8Encode text).getD p.1 0) = false := by
  have hstart : (utf8Encode text).length ≤ 0 ∨
      isContinuationByte ((utf8Encode text).getD 0 0) = false := by
    rcases utf8Encode_start text with h | h
    · exact Or.inl h
    · exact Or.inr h
  obtain ⟨⟨u, tl, hcons⟩, hjoin, htail⟩ :=
    chunkLoop_props (utf8Encode text)
      ((rfc2047Reserve s).softMargin - (b64Prelude.length + 3))
      ((utf8Encode text).length + 1) 0
      (((rfc2047Reserve s).softMargin - (rfc2047Reserve s).currentLine.length) -
        (b64Prelude.length + 2))
      hstart
  refine ⟨rfl, ?_, ?_, ?_⟩
  · simpa [encodeRFC2047Chunks] using hjoin
  · rw [show encodeRFC2047Chunks s text = (0, u) :: tl from hcons]
    rfl
  · intro p hp
    exact htail p (by simpa [encodeRFC2047Chunks] using hp)

/-- C8 witness: with the default emitter and forty copies of the
    two-UTF-8-byte character 0xE9, the encoder splits once, at byte 48,
    which is a UTF-8 lead byte, and the two slices concatenate to the full
    80-byte encoding. -/
theorem C8_witness :
    isContinuationByte
      ((utf8Encode (List.replicate 40 'é')).getD (48, false).1 0) = false :=
  (C8_theorem (mkEmitter {}) (List.replicate 40 'é') true).2.2.2
    (48, false) (by decide)

/-- Flatten of a list around a given index. -/
theorem flatten_split (L : List Str) : ∀ i, i < L.length →
    L.flatten = (L.take i).flatten ++ L.getD i [] ++ (L.drop (i+1)).flatten := by
  induction L with
  | nil => intro i h; simp at h
  | cons x xs ih =>
    intro i h
    cases i with
    | zero => simp
    | succ j =>
      have hj : j < xs.length := by simpa using h
      simp [List.flatten_cons, ih j hj]

/-- A 2047 token whose encoding field is bad or whose charset is unknown
    decodes to invalid or thrown, never to a string — provided a live
    decoder implies a recognized lastCharset. -/
theorem decode2047Token_bad (td : TextDecoding) (st : R2State) (c : Str)
    (hinv : ∀ cs pending, st.dec = some (cs, pending) → td.known st.lastCharset = true)
    (hbad : badToken td c) :
    (decode2047Token td st c).2 = TokRes.invalid ∨
    (decode2047Token td st c).2 = TokRes.thrown := by
  obtain ⟨-, h5, h4, henc⟩ := hbad
  simp only [decode2047Token]
  rw [if_pos ⟨h5, h4⟩]
  rcases henc with henc | hcs
  · have hc : r2Content ((splitOnChar '?' c).getD 2 [])
        ((splitOnChar '?' c).getD 3 []) = some none := by
      unfold r2Content
      rw [if_neg (by tauto), if_neg (by tauto)]
    rw [hc]
    exact Or.inl rfl
  · cases hr : r2Content ((splitOnChar '?' c).getD 2 [])
        ((splitOnChar '?' c).getD 3 []) with
    | none => exact Or.inr rfl
    | some o =>
      cases o with
      | none => exact Or.inl rfl
      | some buf =>
        left
        show (r2Charset td st
          ((splitOnChar '*' ((splitOnChar '?' c).getD 1 [])).headD []) buf).2 =
            TokRes.invalid
        have hnk : ¬ (td.known
            ((splitOnChar '*' ((splitOnChar '?' c).getD 1 [])).headD []) = true) := by
          rw [hcs]
          simp
        simp only [r2Charset]
        by_cases hne :
            ((splitOnChar '*' ((splitOnChar '?' c).getD 1 [])).headD []) ≠ st.lastCharset
        · simp only [if_pos hne, if_neg hnk]
        · simp only [if_neg hne]
          cases hdec : st.dec with
          | none => simp only [if_neg hnk]
          | some cp =>
            exfalso
            have hkn := hinv cp.1 cp.2 (by rw [hdec])
            have heq : (splitOnChar '*' ((splitOnChar '?' c).getD 1 [])).headD [] =
                st.lastCharset := not_ne_iff.mp hne
            rw [heq, hkn] at hcs
            exact absurd hcs (by decide)

/-- decode2047Token preserves the live-decoder invariant: a live decoder
    implies its lastCharset is recognized. -/
theorem decode2047Token_inv (td : TextDecoding) (st : R2State) (c : Str)
    (hinv : ∀ cs pending, st.dec = some (cs, pending) → td.known st.lastCharset = true) :
    ∀ cs pending, (decode2047Token td st c).1.dec = some (cs, pending) →
      td.known (decode2047Token td st c).1.lastCharset = true := by
  intro cs pending h
  simp only [decode2047Token] at h ⊢
  by_cases hshape : (splitOnChar '?' c).length = 5 ∧ (splitOnChar '?' c).getD 4 [] = ['=']
  · rw [if_pos hshape] at h ⊢
    cases hr : r2Content ((splitOnChar '?' c).getD 2 [])
        ((splitOnChar '?' c).getD 3 []) with
    | none =>
      rw [hr] at h
      exact hinv cs pending h
    | some o =>
      cases o with
      | none =>
        rw [hr] at h
        exact hinv cs pending h
      | some buf =>
        rw [hr] at h
        replace h : (r2Charset td st
            ((splitOnChar '*' ((splitOnChar '?' c).getD 1 [])).headD []) buf).1.dec =
            some (cs, pending) := h
        show td.known (r2Charset td st
            ((splitOnChar '*' ((splitOnChar '?' c).getD 1 [])).headD [])
            buf).1.lastCharset = true
        simp only [r2Charset] at h ⊢
        by_cases hne :
            ((splitOnChar '*' ((splitOnChar '?' c).getD 1 [])).headD []) ≠ st.lastCharset
        · simp only [if_pos hne] at h ⊢
          by_cases hkn : td.known
              ((splitOnChar '*' ((splitOnChar '?' c).getD 1 [])).headD []) = true
          · simp only [if_pos hkn] at h ⊢
            exact hkn
          · simp only [if_neg hkn] at h
            exact Option.noConfusion h
        · have heq : (splitOnChar '*' ((splitOnChar '?' c).getD 1 [])).headD [] =
              st.lastCharset := not_ne_iff.mp hne
          rcases hdec : st.dec with - | ⟨cs0, p0⟩
          · simp only [if_neg hne, hdec] at h ⊢
            by_cases hkn : td.known
                ((splitOnChar '*' ((splitOnChar '?' c).getD 1 [])).headD []) = true
            · simp only [if_pos hkn] at h ⊢
              exact hkn
            · simp only [if_neg hkn] at h
              exact Option.noConfusion h
          · simp only [if_neg hne, hdec] at h ⊢
            have hlast : td.known
                ((splitOnChar '*' ((splitOnChar '?' c).getD 1 [])).headD []) = true := by
              rw [heq]
              exact hinv cs0 p0 hdec
            simpa using hlast
  · rw [if_neg hshape] at h ⊢
    exact hinv cs pending h

/-- The flush fall-through always clears the live decoder. -/
theorem r2Flush_dec (td : TextDecoding) (st : R2State) :
    (r2Flush td st).2.dec = none := by
  rcases hd : st.dec with - | ⟨cs, p⟩ <;> simp [r2Flush, hd]

/-- When the decodeRFC2047Words loop returns, the output has one entry per
    component, and each bad component appears in its output slot with only
    a (possibly empty) decoder-flush prefix prepended. -/
theorem r2Loop_bad (td : TextDecoding) :
    ∀ (comps : List Str) (st : R2State),
      (∀ cs pending, st.dec = some (cs, pending) → td.known st.lastCharset = true) →
      ∀ out, r2Loop td comps st = some out →
        out.length = comps.length ∧
        ∀ i, i < comps.length → badToken td (comps.getD i []) →
          ∃ pre, out.getD i [] = pre ++ comps.getD i [] := by
  intro comps
  induction comps with
  | nil =>
    intro st hinv out hout
    simp only [r2Loop, Option.some.injEq] at hout
    subst hout
    exact ⟨rfl, by intro i hi; simp at hi⟩
  | cons c cs ih =>
    intro st hinv out hout
    simp only [r2Loop] at hout
    by_cases hpre : c.take 2 = ['=', '?']
    · rw [if_pos hpre] at hout
      rcases hres : decode2047Token td st c with ⟨st', r⟩
      rw [hres] at hout
      cases r with
      | ok s =>
        rcases Option.map_eq_some'.mp hout with ⟨rest, hrest, hcons⟩
        subst hcons
        have hinv' := decode2047Token_inv td st c hinv
        rw [hres] at hinv'
        obtain ⟨hlen, hrec⟩ := ih st' (by simpa using hinv') rest hrest
        refine ⟨by simp [hlen], ?_⟩
        intro i hi hbad
        cases i with
        | zero =>
          exfalso
          have hb := decode2047Token_bad td st c hinv (by simpa using hbad)
          rw [hres] at hb
          rcases hb with h' | h' <;> simp at h'
        | succ j =>
          have hj : j < cs.length := by simpa using hi
          obtain ⟨pre, hp⟩ := hrec j hj (by simpa using hbad)
          exact ⟨pre, by simpa using hp⟩
      | invalid =>
        rcases Option.map_eq_some'.mp hout with ⟨rest, hrest, hcons⟩
        subst hcons
        obtain ⟨hlen, hrec⟩ := ih (r2Flush td st').2
          (by intro cs0 p0 h0; rw [r2Flush_dec] at h0; cases h0) rest hrest
        refine ⟨by simp [hlen], ?_⟩
        intro i hi hbad
        cases i with
        | zero => exact ⟨(r2Flush td st').1, by simp⟩
        | succ j =>
          have hj : j < cs.length := by simpa using hi
          obtain ⟨pre, hp⟩ := hrec j hj (by simpa using hbad)
          exact ⟨pre, by simpa using hp⟩
      | thrown => exact absurd hout (by simp)
    · rw [if_neg hpre] at hout
      by_cases hwsp : isWspOnly c = true
      · rw [if_pos hwsp] at hout
        rcases Option.map_eq_some'.mp hout with ⟨rest, hrest, hcons⟩
        subst hcons
        obtain ⟨hlen, hrec⟩ := ih st hinv rest hrest
        refine ⟨by simp [hlen], ?_⟩
        intro i hi hbad
        cases i with
        | zero =>
          exfalso
          exact hpre (by simpa [badToken] using hbad.1)
        | succ j =>
          have hj : j < cs.length := by simpa using hi
          obtain ⟨pre, hp⟩ := hrec j hj (by simpa using hbad)
          exact ⟨pre, by simpa using hp⟩
      · rw [if_neg hwsp] at hout
        rcases Option.map_eq_some'.mp hout with ⟨rest, hrest, hcons⟩
        subst hcons
        obtain ⟨hlen, hrec⟩ := ih (r2Flush td st).2
          (by intro cs0 p0 h0; rw [r2Flush_dec] at h0; cases h0) rest hrest
        refine ⟨by simp [hlen], ?_⟩
        intro i hi hbad
        cases i with
        | zero => exact ⟨(r2Flush td st).1, by simp⟩
        | succ j =>
          have hj : j < cs.length := by simpa using hi
          obtain ⟨pre, hp⟩ := hrec j hj (by simpa using hbad)
          exact ⟨pre, by simpa using hp⟩

/-- C9: for every input on which decodeRFC2047Words returns (rather than
    propagating an exception), every component of the split whose shape is
    =?charset?enc?text?= but whose encoding field is not one of B, b, Q, q
    or whose charset is not recognized by the text-decoding facility
    appears character-for-character unchanged (as a contiguous segment) in
    the returned string. -/
theorem C9_theorem (td : TextDecoding) (headerValue : Str) (out : Str)
    (hout : decodeRFC2047Words td headerValue = some out) :
    ∀ i, i < (splitR2047 headerValue).length →
      badToken td ((splitR2047 headerValue).getD i []) →
      ∃ pre post,
        out = pre ++ (splitR2047 headerValue).getD i [] ++ post := by
  intro i hi hbad
  unfold decodeRFC2047Words at hout
  rcases Option.map_eq_some'.mp hout with ⟨L, hL, hflat⟩
  obtain ⟨hlen, hrec⟩ := r2Loop_bad td (splitR2047 headerValue)
    { lastCharset := [], dec := none } (by intro cs p h; cases h) L hL
  obtain ⟨pre, hp⟩ := hrec i hi hbad
  subst hflat
  rw [flatten_split L i (by rw [hlen]; exact hi)]
  exact ⟨(L.take i).flatten ++ pre, (L.drop (i+1)).flatten,
    by rw [hp]; simp [List.append_assoc]⟩

/-- C9 witness: the token =?bogus?Q?hi?= with an unrecognized charset is
    returned unchanged by decodeRFC2047Words. -/
theorem C9_witness :
    ∃ pre post, "=?bogus?Q?hi?=".data =
      pre ++ (splitR2047 "=?bogus?Q?hi?=".data).getD 1 [] ++ post :=
  C9_theorem noTD "=?bogus?Q?hi?=".data "=?bogus?Q?hi?=".data (by decide) 1
    (by decide)
    ⟨by decide, by decide, by decide, Or.inr (by decide)⟩

/-- C2 (code bug): evaluation of the tokenizer at the failing input
    [a\]b] with the dliteral option on.  The DomainLiteral token does
    include both brackets, but its printable form is "[a]b]": the Token
    constructor has removed the quoted-pair backslash, contradicting the
    claim (and the tokenizer's own documentation, which states that
    escapes in domain literals are NOT omitted). -/
theorem C2_theorem :
    getHeaderTokens noTD "[a\\]b]".data [] { dliteral := true } =
      some [HTok.tok "[a]b]".data] ∧
    (HTok.tok "[a]b]".data).printable ≠ "[a\\]b]".data :=
  ⟨by decide, by decide⟩

/-- C5 counterexample: with softMargin=500 (inside [30,900]) and
    hardMargin absent, the constructed HeaderEmitter has hardMargin 332,
    violating the claimed invariant softMargin ≤ hardMargin. -/
theorem C5_counterexample :
    ¬ ((mkEmitter { softMargin := some 500 }).softMargin ≤
       (mkEmitter { softMargin := some 500 }).hardMargin) := by
  decide

/-- C5 (amended): for every options object the constructed HeaderEmitter
    satisfies 30 ≤ softMargin ≤ 900 with default 78, and when hardMargin
    is supplied, softMargin ≤ hardMargin ≤ 998; when hardMargin is absent
    it defaults to 332 unconditionally, which is below softMargin whenever
    softMargin exceeds 332. -/
theorem C5_theorem (o : EmOptions) :
    (30 ≤ (mkEmitter o).softMargin ∧ (mkEmitter o).softMargin ≤ 900) ∧
    (o.softMargin = none → (mkEmitter o).softMargin = 78) ∧
    (o.hardMargin = none → (mkEmitter o).hardMargin = 332) ∧
    (∀ hm : Int, o.hardMargin = some hm →
      (mkEmitter o).softMargin ≤ (mkEmitter o).hardMargin ∧
      (mkEmitter o).hardMargin ≤ 998) := by
  obtain ⟨sm, hm, ua⟩ := o
  simp only [mkEmitter, clamp]
  cases sm <;> cases hm <;> simp <;> omega

/-- C5 witness: defaults give softMargin 78 and hardMargin 332, and an
    out-of-range explicit hardMargin is clamped into [softMargin, 998]. -/
theorem C5_witness :
    ((30 ≤ (mkEmitter {}).softMargin ∧ (mkEmitter {}).softMargin ≤ 900) ∧
      (mkEmitter {}).softMargin = 78) ∧
    (mkEmitter {}).hardMargin = 332 ∧
    ((mkEmitter { hardMargin := some 1200 }).softMargin ≤
        (mkEmitter { hardMargin := some 1200 }).hardMargin ∧
      (mkEmitter { hardMargin := some 1200 }).hardMargin ≤ 998) :=
  ⟨⟨(C5_theorem {}).1, (C5_theorem {}).2.1 rfl⟩, (C5_theorem {}).2.2.1 rfl,
   (C5_theorem { hardMargin := some 1200 }).2.2.2 1200 rfl⟩

/-- C4 counterexample: writing "To: " and then a 340-character token makes
    addText throw, but by that time the sink has already received the
    committed partial lines "To:" CRLF and an empty folded line — partial
    header output IS delivered, refuting the claim's second half. -/
theorem C4_counterexample :
    c4run.1 = Except.error (cannotEncodeMsg (List.replicate 340 'a')) ∧
    c4run.2.output = ["To:".data ++ ['\r', '\n'], ['\r', '\n']] ∧
    c4run.2.output ≠ [] := by
  refine ⟨rfl, by decide, by decide⟩

/-- C4 (amended): when a token cannot fit within the hard margin even
    after folding at all preferred and emergency breakpoints (that is,
    _reserveTokenSpace fails), addText fails fast by throwing an error and
    the token is not appended to the line; however, the lines committed by
    the folding attempts have already been delivered to the sink, so
    partial header output may already have been delivered for that
    header. -/
theorem C4_theorem (s : EmState) (text : Str) (mayBreakAfter : Bool)
    (hfail : (reserveTokenSpace s text.length).1 = false) :
    addText s text mayBreakAfter =
      (Except.error (cannotEncodeMsg text), (reserveTokenSpace s text.length).2) := by
  rcases hres : reserveTokenSpace s text.length with ⟨ok, s1⟩
  rw [hres] at hfail
  simp only at hfail
  subst hfail
  simp [addText, hres]

/-- C4 witness: the concrete overflow run of c4run satisfies the amended
    statement. -/
theorem C4_witness :
    addText (addText (mkEmitter {}) "To: ".data true).2 (List.replicate 340 'a') false =
      (Except.error (cannotEncodeMsg (List.replicate 340 'a')),
       (reserveTokenSpace (addText (mkEmitter {}) "To: ".data true).2
          (List.replicate 340 'a').length).2) :=
  C4_theorem _ _ false (by decide)

/-- C1 counterexample: the claim says the consumer callbacks report
    exactly one body part below the root, numbered 1, but the two
    separator boundary lines delimit two subparts: startPart fires below
    the root for part 1 and for part 2. -/
theorem C1_counterexample :
    (parseMessage noTD {} c1msg).map (fun evs =>
      evs.filterMap (fun e =>
        match e with
        | MEvent.startPart pn _ => if pn ≠ [] then some pn else none
        | _ => none)) = some ["1".data, "2".data] := by decide

/-- C1 (amended): on the multipart/mixed message with boundary frontier,
    two separator boundary lines and one terminator line, the parser
    reports the root part (the empty string) and exactly two body parts
    below it, numbered 1 and 2 in order (children of a multipart are
    parent.N with N starting at 1), with the full callback trace
    startMessage, startPart of the root, startPart/endPart of part 1,
    startPart/endPart of part 2, endPart of the root, endMessage. -/
theorem C1_theorem :
    c1trace = some
      [("startMessage".data, ([] : Str)), ("startPart".data, []),
       ("startPart".data, "1".data), ("endPart".data, "1".data),
       ("startPart".data, "2".data), ("endPart".data, "2".data),
       ("endPart".data, []), ("endMessage".data, [])] := by decide

/-- C3 counterexample: the claim says addStructuredEncoder with the name
    of a built-in structured header throws and leaves the registry entry
    unchanged, but the source function has no forbidden-name check and no
    throw path: called with the built-in name To it replaces the
    registered writeAddress encoder (identity 0) with the new function
    (identity 100). -/
theorem C3_counterexample :
    aget emRegistry.encoders "to".data = some 0 ∧
    aget (addStructuredEncoder emRegistry "To".data 100).encoders "to".data =
      some 100 := by
  exact ⟨by decide, by decide⟩

/-- C3 (amended): the module load succeeds and yields the registry;
    addStructuredDecoder throws (none) on any name whose lowercase is
    forbidden, in particular the built-ins To and Content-Type in any
    case, and mutates nothing on that path; a new non-built-in name
    registers fine with either function; but addStructuredEncoder never
    throws, even on a built-in name, where it silently replaces the
    entry. -/
theorem C3_theorem :
    initHeaderparser = some hpRegistry ∧
    (∀ (header : Str) (decoder : Nat), toLowerStr header ∈ hpRegistry.forbiddenHeaders →
      addStructuredDecoder hpRegistry header decoder = none) ∧
    addStructuredDecoder hpRegistry "To".data 100 = none ∧
    addStructuredDecoder hpRegistry "cOnTeNt-TyPe".data 100 = none ∧
    (addStructuredDecoder hpRegistry "X-Custom".data 100).map
      (fun reg => aget reg.structuredDecoders "x-custom".data) = some (some 100) ∧
    aget (addStructuredEncoder emRegistry "X-Custom".data 100).encoders "x-custom".data
      = some 100 ∧
    (addStructuredEncoder emRegistry "To".data 100).encoders ≠ emRegistry.encoders := by
  refine ⟨by decide, ?_, by decide, by decide, by decide, by decide, by decide⟩
  intro header decoder hmem
  simp [addStructuredDecoder, hmem]

/-- C3 witness: the forbidden-name conjunct applied to the built-in
    Subject. -/
theorem C3_witness : addStructuredDecoder hpRegistry "Subject".data 100 = none :=
  C3_theorem.2.1 "Subject".data 100 (by decide)

/-- C7: parseDateHeader adjusts a two-digit year y to 2000+y when y < 50
    and to 1900+y otherwise; a timezone token that is neither in the
    abbreviation table nor of the sign-HHMM shape gives offset 0 (+0000);
    and the header "Fri, 21 Nov 1997 09:55:06 -0600" parses to the
    instant 1997-11-21T15:55:06Z, 880127706000 ms after the epoch. -/
theorem C7_theorem :
    (∀ y : Int, 0 ≤ y → y < 100 →
      adjustYear (some y) = some (if y < 50 then 2000 + y else 1900 + y)) ∧
    (∀ tz : Str, aget kKnownTZs tz = none → tzDecompose tz = none →
      tzOffsetInMin tz = 0) ∧
    parseDateHeader noTD "Fri, 21 Nov 1997 09:55:06 -0600".data =
      some (some 880127706000) := by
  refine ⟨?_, ?_, by decide⟩
  · intro y h0 h100
    simp only [adjustYear, Option.map_some', if_pos h100]
    by_cases h50 : y < 50
    · simp only [if_pos h50, Int.add_comm]
    · simp only [if_neg h50, Int.add_comm]
  · intro tz h1 h2
    simp [tzOffsetInMin, h1, h2]

/-- C7 witness: the year adjustment at 97 and the unknown-timezone offset
    at the token XYZ. -/
theorem C7_witness :
    adjustYear (some 97) = some (if (97 : Int) < 50 then 2000 + 97 else 1900 + 97) ∧
    tzOffsetInMin "XYZ".data = 0 :=
  ⟨C7_theorem.1 97 (by decide) (by decide),
   C7_theorem.2.1 "XYZ".data (by decide) (by decide)⟩

/-- C6 counterexample: the claim says a repeated continuation index
    invalidates the whole entry so that no value from it is set, but on
    the header value "a; p*0=x; p*1=y; p*1=z" with RFC 2231 decoding on,
    the repeat of p*1 marks the entry invalid yet the assembly pass never
    consults the valid flag, so p is still set, to the segments recorded
    before the repeat ("xy"). -/
theorem C6_counterexample :
    parseParameterHeader noTD "a; p*0=x; p*1=y; p*1=z".data false true =
      some ("a".data, [("p".data, "xy".data)]) := by decide

/-- C6 (amended): with RFC 2231 decoding on, a continuation parameter
    contributes no value when no *0 segment was seen; assembly uses the
    contiguous prefix of recorded segments, stopping at the first gap; and
    a repeated or bad index stops further segments from being recorded but
    does not discard the entry: the segments recorded before the fault are
    still assembled and set.  The last conjunct states the *0 requirement
    in general: the assembly step leaves the value map unchanged on any
    entry whose hasCharset marker was never set. -/
theorem C6_theorem :
    parseParameterHeader noTD "a; p*1=y".data false true = some ("a".data, []) ∧
    parseParameterHeader noTD "a; p*0=x; p*2=z".data false true =
      some ("a".data, [("p".data, "x".data)]) ∧
    parseParameterHeader noTD "a; p*0=x; p*1=y; p*1=z; p*2=w".data false true =
      some ("a".data, [("p".data, "xy".data)]) ∧
    parseParameterHeader noTD "a; p*0=x; p*01=y".data false true =
      some ("a".data, [("p".data, "x".data)]) ∧
    (∀ (td : TextDecoding) (values : List (Str × Str)) (p : Str × ContEntry),
      p.2.hasCharset = none → contAssembleStep td values p = values) := by
  refine ⟨by decide, by decide, by decide, by decide, ?_⟩
  intro td values p h
  simp [contAssembleStep, h]

/-- C6 witness: the general conjunct of C6_theorem at a concrete entry
    with no *0 segment. -/
theorem C6_witness :
    contAssembleStep noTD [] ("q".data,
      { valid := true, hasCharset := none, arr := [some "y".data] }) = [] :=
  C6_theorem.2.2.2.2 noTD [] _ rfl

end JSMime
